import Mathlib

/-!
# SourceDemoRender: address resolution and configuration activation

A shallow embedding of `Projects/Library/Interface/Application/Application.cpp`
and a verification of its byte-pattern scanner, pattern text parser, variant
selection and profile inheritance.

Conventions of the embedding:

* a pointer into a byte buffer or a C string is the list of the elements from
  the pointer to the end of the buffer; reading past the end is the failure
  `Failure.outOfBounds`;
* `SDR::Error::Make` throws, which is the failure `Failure.raised`;
* `size_t` is an unsigned integer of `w` bits, `w` being a parameter
  (32 on the platform the library is built for).
-/

namespace SDR

/-! ## Outcomes -/

/-- The errors that `SDR::Error::Make` raises in the embedded functions, one
constructor per call site (the arguments are those of the format string). -/
inductive Error where
  /-- `"SDR: \"%s\" inherit field not a string\n"` -/
  | inheritNotString (object : String)
  /-- `"\"%s\" inherit target \"%s\" not found"` -/
  | inheritTargetNotFound (object : String) (src : String)
  /-- `"Error in string byte pair formatting"` -/
  | bytePairFormatting
  /-- `"Empty byte pattern"` -/
  | emptyBytePattern
  /-- `"SDR: Variant overload %d for \"%s\" not in bounds (%d max)\n"` -/
  | variantOutOfBounds (variant : Int) (max : Int)
  /-- An error raised by `SDR::Json::GetInt` (member absent or not an integer). -/
  | jsonMember (name : String)
  /-- `"Could not find game config"` -/
  | gameConfigNotFound
  /-- `"Could not find current game in game config"` -/
  | currentGameNotFound
  /-- `"Could not enable module \"%s\""` -/
  | couldNotEnableModule (name : String)
  /-- `"Could not create hook (\"%s\")"`, with the status of the hooking call. -/
  | couldNotCreateHook (status : Int)
  /-- `"Could not enable hook (\"%s\")"`, with the status of the hooking call. -/
  | couldNotEnableHook (status : Int)
  /-- `"Could not find virtual object name \"%s\""` -/
  | virtualObjectNotFound (name : String)
  /-- `"Registry value \"%s\" was null"`, raised by `SDR::Error::ThrowIfNull`. -/
  | registryValueNull (name : String)
  /-- The error of `SDR::Error::ThrowIfNull` called without a message. -/
  | nullPointer
  deriving DecidableEq

/-- Ways in which an embedded function does not return a value. -/
inductive Failure where
  /-- An exception thrown by `SDR::Error::Make`. -/
  | raised (e : Error)
  /-- A read through a pointer that has left its buffer (undefined behaviour). -/
  | outOfBounds
  /-- The loop or recursion never ends. -/
  | diverges
  /-- The fuel given to a recursive model ran out. -/
  | outOfFuel
  /-- An assertion of rapidjson fails: a value has not the type asked for. -/
  | assertion
  deriving DecidableEq

/-- The outcome of an embedded function. -/
abbrev Result (α : Type) := Except Failure α

instance instDecidableEqResult {α : Type} [DecidableEq α] : DecidableEq (Result α)
  | .ok a, .ok b => if h : a = b then isTrue (by rw [h]) else isFalse (by intro e; cases e; exact h rfl)
  | .error a, .error b =>
    if h : a = b then isTrue (by rw [h]) else isFalse (by intro e; cases e; exact h rfl)
  | .ok _, .error _ => isFalse (by intro e; cases e)
  | .error _, .ok _ => isFalse (by intro e; cases e)

/-! ## Byte patterns (`SDR::BytePattern`) -/

/-- An entry of `SDR::BytePattern`: `Value` is a `uint8_t`, `Unknown` marks a
wildcard. -/
structure BytePattern.Entry where
  Value : Nat
  Unknown : Bool
  deriving DecidableEq

/-- The vector `SDR::BytePattern::Bytes`. -/
abbrev BytePattern := List BytePattern.Entry

end SDR

namespace Memory

open SDR

/-- The loop of `Memory::DataCompare`, with `n` iterations left. `data` and
`pattern` are the two pointers (the elements from the pointer on), `index` the
counter. The byte `*data` is read only when the entry is not a wildcard
(`&&` short-circuits). The result is the returned `bool`, or `index` at the
end of the loop. -/
def DataCompare.loop : Nat → List Nat → List BytePattern.Entry → Nat → Result (Option Nat)
  | 0, _, _, index => .ok (some index)
  | n + 1, data, pattern, index =>
    match pattern with
    | [] => .error .outOfBounds
    | byte :: pattern' =>
      if byte.Unknown then
        DataCompare.loop n data.tail pattern' (index + 1)
      else
        match data with
        | [] => .error .outOfBounds
        | d :: data' =>
          if d ≠ byte.Value then .ok none
          else DataCompare.loop n data' pattern' (index + 1)

/-- `Memory::DataCompare(data, pattern, patternlength)`: `false` at the first
non-wildcard entry that differs from the byte at the same position, otherwise
`index == patternlength`. (`index` is an `int` that counts the iterations; it
does not overflow for a pattern of fewer than 2^31 entries.) -/
def DataCompare (data : List Nat) (pattern : List BytePattern.Entry) (patternlength : Nat) :
    Result Bool :=
  match DataCompare.loop patternlength data pattern 0 with
  | .ok none => .ok false
  | .ok (some index) => .ok (index == patternlength)
  | .error e => .error e

/-- The bound `searchlength - length` of the scan, as `size_t` arithmetic
gives it: the difference modulo `2^w`. -/
def scanBound (w searchlength length : Nat) : Nat :=
  (((searchlength : Int) - (length : Int)) % ((2 : Int) ^ w)).toNat

/-- The `for` loop of `Memory::FindPattern` from the offset `i` on:
`for (; i <= bound; ++i)`, where `++i` wraps at `2^w`. The loop runs through at
most `2^w` offsets before `i` is 0 again with nothing changed, so fuel
`2^w + 1` is never used up unless the loop runs for ever. The result is the
offset of the returned address from `start`, or `none` for `nullptr`. -/
def FindPattern.loop (w : Nat) (start : List Nat) (pattern : BytePattern) (bound : Nat) :
    Nat → Nat → Result (Option Nat)
  | 0, _ => .error .diverges
  | fuel + 1, i =>
    if i ≤ bound then
      match DataCompare (start.drop i) pattern pattern.length with
      | .ok true => .ok (some i)
      | .ok false => FindPattern.loop w start pattern bound fuel ((i + 1) % 2 ^ w)
      | .error e => .error e
    else .ok none

/-- `Memory::FindPattern(start, searchlength, pattern)`. `start` is the memory
readable from the address `start` on, of which the first `searchlength` bytes
are the region to search. -/
def FindPattern (w : Nat) (start : List Nat) (searchlength : Nat) (pattern : BytePattern) :
    Result (Option Nat) :=
  FindPattern.loop w start pattern (scanBound w searchlength pattern.length) (2 ^ w + 1) 0

/-- The pattern `P` matches the region `R` at the start offset `i`: it fits in
the region, and every non-wildcard entry equals the region byte at the same
position. -/
def MatchesAt (R : List Nat) (P : BytePattern) (i : Nat) : Prop :=
  i + P.length ≤ R.length ∧
    ∀ (k : Nat) (e : BytePattern.Entry), P[k]? = some e → e.Unknown = false → R[i + k]? = some e.Value

end Memory

namespace SDR

/-! ## Pattern text (`SDR::GetPatternFromString`) -/

/-- `std::isxdigit` on a character code: `0-9`, `A-F`, `a-f`. -/
def isxdigit (c : Char) : Bool :=
  (48 ≤ c.toNat && c.toNat ≤ 57) || (65 ≤ c.toNat && c.toNat ≤ 70) ||
    (97 ≤ c.toNat && c.toNat ≤ 102)

/-- `std::isspace` in the C locale: space, `\t`, `\n`, `\v`, `\f`, `\r`. -/
def isspace (c : Char) : Bool :=
  c.toNat = 32 || (9 ≤ c.toNat && c.toNat ≤ 13)

/-- Modelled from the spec: `SDR::String::IsSpace` is declared in
`SDR Shared\String.hpp`, which is not among the sources; the pattern text is
"whitespace-separated", so it is taken to be `std::isspace`. -/
def String.IsSpace (c : Char) : Bool := isspace c

/-- The value of a hexadecimal digit. -/
def hexDigitValue (c : Char) : Nat :=
  if c.toNat ≤ 57 then c.toNat - 48
  else if c.toNat ≤ 70 then c.toNat - 55
  else c.toNat - 87

/-- `std::strtol(input, nullptr, 16)` of the C library: leading whitespace is
skipped, then an optional sign and an optional `0x`/`0X` (when a digit
follows), then the longest run of hexadecimal digits is read; a value that a
`long` (32 bits here) cannot hold is clamped. -/
def strtol16 (input : List Char) : Int :=
  let s := input.dropWhile isspace
  let neg : Bool := match s with
    | c :: _ => c.toNat = 45
    | [] => false
  let s := match s with
    | c :: r => if c.toNat = 45 ∨ c.toNat = 43 then r else s
    | [] => s
  let s := match s with
    | z :: x :: d :: r =>
      if z.toNat = 48 ∧ (x.toNat = 120 ∨ x.toNat = 88) ∧ isxdigit d = true then d :: r else s
    | _ => s
  let v : Nat := (s.takeWhile isxdigit).foldl (fun acc c => acc * 16 + hexDigitValue c) 0
  if neg then max (-(v : Int)) (-(2 : Int) ^ 31) else min (v : Int) ((2 : Int) ^ 31 - 1)

/-- The conversion of a `long` to `uint8_t`. -/
def toUInt8 (v : Int) : Nat := (v % 256).toNat

/-- The character `*input` of a C string whose characters before the
terminator are `input`: the terminator (code 0) when none is left. -/
def deref (input : List Char) : Char := input.headD (Char.ofNat 0)

/-- The pointer `input + 2`: `none` when it lies beyond the terminator. -/
def advance2 : List Char → Option (List Char)
  | _ :: _ :: rest => some rest
  | _ => none

/-- The `while (*input)` loop of `SDR::GetPatternFromString`. The pointer
`input` is `some` of the characters from the pointer to the terminator, or
`none` once it has moved beyond the terminator. `init` is a
default-constructed `BytePattern::Entry` (the declaration of the structure is
not among the sources). Every iteration takes at least one character, so the
fuel `length + 1` that `GetPatternFromString` gives is never used up. -/
def GetPatternFromString.loop (init : BytePattern.Entry) :
    Nat → Option (List Char) → Bool → BytePattern → Result BytePattern
  | 0, _, _, _ => .error .outOfFuel
  | _ + 1, none, _, _ => .error .outOfBounds
  | fuel + 1, some input, shouldbespace, ret =>
    if (deref input).toNat = 0 then .ok ret
    else
      let next : Option (List Char) :=
        if String.IsSpace (deref input) then some input.tail
        else if shouldbespace then none
        else some input
      match next with
      | none => .error (.raised .bytePairFormatting)
      | some input =>
        let entry : BytePattern.Entry :=
          if isxdigit (deref input) then
            { init with Unknown := false, Value := toUInt8 (strtol16 input) }
          else
            { init with Unknown := true }
        GetPatternFromString.loop init fuel (advance2 input) true (ret ++ [entry])

/-- `SDR::GetPatternFromString(input)`; `input` holds the characters of the
text before its terminator. -/
def GetPatternFromString (init : BytePattern.Entry) (input : List Char) : Result BytePattern :=
  match GetPatternFromString.loop init (input.length + 1) (some input) false [] with
  | .ok ret => if ret.isEmpty then .error (.raised .emptyBytePattern) else .ok ret
  | .error e => .error e

/-- A token of the pattern text format: two hexadecimal digits, or `??`. -/
def WellFormedToken (t : List Char) : Prop :=
  t = ['?', '?'] ∨ ∃ a b, t = [a, b] ∧ isxdigit a = true ∧ isxdigit b = true

/-- The entry that the format assigns to a token: a wildcard for `??`, the
hexadecimal value of the two digits otherwise. -/
def tokenEntry (init : BytePattern.Entry) (t : List Char) : BytePattern.Entry :=
  if t = ['?', '?'] then { init with Unknown := true }
  else { init with
    Unknown := false
    Value := hexDigitValue (t.headD (Char.ofNat 0)) * 16 + hexDigitValue (t.tail.headD (Char.ofNat 0)) }

/-- The tokens joined by single spaces. -/
def joinTokens (tokens : List (List Char)) : List Char :=
  [' '].intercalate tokens

/-- The text that follows a token in a well-formed pattern text is empty or
starts with a space. -/
def spaced : List (List Char) → List Char
  | [] => []
  | t :: ts => ' ' :: (t ++ spaced ts)

/-- The text that follows a token when every further token comes after one
separating character of its own. -/
def spacedWith : List (Char × List Char) → List Char
  | [] => []
  | st :: rest => st.1 :: (st.2 ++ spacedWith rest)

/-- The text holds three consecutive characters that are not whitespace, none
of the characters up to them being the terminator. -/
def HasLongToken (s : List Char) : Prop :=
  ∃ u x y z post, s = u ++ x :: y :: z :: post ∧ (∀ c ∈ u, c.toNat ≠ 0) ∧
    (x.toNat ≠ 0 ∧ String.IsSpace x = false) ∧ (y.toNat ≠ 0 ∧ String.IsSpace y = false) ∧
    (z.toNat ≠ 0 ∧ String.IsSpace z = false)

/-- The text starts with a character that is not whitespace. -/
def StartsNonSpace (s : List Char) : Prop :=
  ∃ c rest, s = c :: rest ∧ c.toNat ≠ 0 ∧ String.IsSpace c = false

end SDR

/-! ## Structured configuration values (`rapidjson::Value`) -/

namespace rapidjson

/-- A JSON value as `rapidjson::Value` holds it; the members of an object are
kept in document order. -/
inductive Value where
  | null
  | bool (b : Bool)
  | int (n : Int)
  | str (s : String)
  | arr (elements : List Value)
  | obj (members : List (String × Value))

/-- `Value::IsString`. -/
def Value.IsString : Value → Bool
  | .str _ => true
  | _ => false

/-- `Value::GetString`. (On a value that is not a string rapidjson asserts; the
embedding answers the empty string.) -/
def Value.GetString : Value → String
  | .str s => s
  | _ => ""

/-- `Value::HasMember(name)`, for an object. (On a value that is not an object
rapidjson asserts; the embedding answers `false`.) -/
def Value.HasMember : Value → String → Bool
  | .obj members, name => members.any (fun m => m.1 == name)
  | _, _ => false

end rapidjson

namespace SDR

open rapidjson

/-- Modelled from the spec: `SDR::Json::GetInt` is declared in
`SDR Shared\Json.hpp`, which is not among the sources. It returns the integer
held by the member `name` (the first of that name), and raises an error when
the member is absent or is not an integer. -/
def Json.GetInt : Value → String → Result Int
  | .obj members, name =>
    match members.find? (fun m => m.1 == name) with
    | some (_, .int n) => .ok n
    | _ => .error (.raised (.jsonMember name))
  | _, name => .error (.raised (.jsonMember name))

/-! ## Variant selection -/

/-- `SDR::JsonHasVariant`. -/
def JsonHasVariant (value : Value) : Bool :=
  if value.HasMember "Variant" then true else false

/-- `SDR::GetVariantFromJson`. -/
def GetVariantFromJson (value : Value) : Result Int :=
  if JsonHasVariant value then Json.GetInt value "Variant" else .ok 0

/-- `SDR::WarnIfVariantOutOfBounds(variant, max)`. `SDR::Error::Make` throws;
the text of its message is not part of the embedding. -/
def WarnIfVariantOutOfBounds (variant max : Int) : Result Unit :=
  if variant < 0 ∨ variant ≥ max then .error (.raised (.variantOutOfBounds variant max))
  else .ok ()

/-- The conversion of a `size_t` to `int` at a call: the value modulo `2^32`,
read as a signed 32-bit integer. -/
def sizeToInt (n : Nat) : Int :=
  if n % 2 ^ 32 < 2 ^ 31 then ((n % 2 ^ 32 : Nat) : Int) else ((n % 2 ^ 32 : Nat) : Int) - 2 ^ 32

/-- `SDR::GenericHookInitParam`: the hook record (by its identity) and the
address of the override. -/
structure GenericHookInitParam where
  Hook : Nat
  Override : Nat
  deriving DecidableEq

/-- `SDR::GenericHookVariantInit(hooks, value)`. `CreateHookBareShort` stands
for the function of that name, which resolves the address and installs the
hook. `*(hooks.begin() + variant)` is the element of index `variant`. -/
def GenericHookVariantInit (CreateHookBareShort : Nat → Nat → Value → Result Unit)
    (hooks : List GenericHookInitParam) (value : Value) : Result Unit :=
  match GetVariantFromJson value with
  | .error e => .error e
  | .ok variant =>
    let size := hooks.length
    match WarnIfVariantOutOfBounds variant (sizeToInt size) with
    | .error e => .error e
    | .ok () =>
      match hooks[variant.toNat]? with
      | none => .error .outOfBounds
      | some target => CreateHookBareShort target.Hook target.Override value

end SDR

/-! ## Profiles and inheritance (`Config`) -/

namespace Config

open SDR rapidjson

/-- `Config::ConfigObjectData`: a profile, its properties in document order. -/
structure ConfigObjectData where
  ObjectName : String
  Properties : List (String × Value)

/-- The first property whose key is `"Inherit"`, as the `for` loop over
`targetgame->Properties` finds it: its index and its value. -/
def findInherit : List (String × Value) → Option (Nat × Value)
  | [] => none
  | p :: ps =>
    if p.1 = "Inherit" then some (0, p.2)
    else (findInherit ps).map (fun r => (r.1 + 1, r.2))

/-- The loop over `game.Properties`: a property of the source is appended to
the properties of the target unless the target has a property of that key
already. -/
def addMissing (dest : List (String × Value)) (sourceprops : List (String × Value)) :
    List (String × Value) :=
  sourceprops.foldl
    (fun dest sourceprop =>
      let shouldadd := !dest.any (fun destprop => sourceprop.1 == destprop.1)
      if shouldadd then dest ++ [sourceprop] else dest)
    dest

/-- The loop `for (const auto& game : source)` of `Config::ResolveInherit`.
`foundgame` is declared inside the loop and the test `if (!foundgame)` stands
inside it as well, after the `if` that ends with `break`: the first profile
either is the one named `src` and the loop is left, or the error is raised. No
later profile is looked at; an empty collection raises nothing. -/
def ResolveInherit.fromSource (targetgame : ConfigObjectData) (src : String) :
    List ConfigObjectData → Result ConfigObjectData
  | [] => .ok targetgame
  | game :: _ =>
    if game.ObjectName = src then
      .ok { targetgame with Properties := addMissing targetgame.Properties game.Properties }
    else
      .error (.raised (.inheritTargetNotFound targetgame.ObjectName src))

/-- The collection as it is read through `source` while `*targetgame` is being
changed: when the target is the element of index `k` of the collection
(`self = some k`), that element is the target in its current state. -/
def sourceView (self : Option Nat) (targetgame : ConfigObjectData)
    (source : List ConfigObjectData) : List ConfigObjectData :=
  match self with
  | some k => source.set k targetgame
  | none => source

/-- `Config::ResolveInherit(targetgame, source, alloc)`. The result is the
profile `*targetgame` on return. `self` tells whether `targetgame` points into
`source` (as it does in `SetupGame` and `SetupExtensions`) and where. The
function calls itself after every `Inherit` it has resolved, without a bound;
`fuel` bounds the depth of the recursion in the embedding. -/
def ResolveInherit : Nat → Option Nat → ConfigObjectData → List ConfigObjectData →
    Result ConfigObjectData
  | 0, _, _, _ => .error .outOfFuel
  | fuel + 1, self, targetgame, source =>
    match findInherit targetgame.Properties with
    | none => .ok targetgame
    | some (i, value) =>
      if value.IsString = false then
        .error (.raised (.inheritNotString targetgame.ObjectName))
      else
        let src := value.GetString
        let erased : ConfigObjectData :=
          { targetgame with Properties := targetgame.Properties.eraseIdx i }
        match ResolveInherit.fromSource erased src (sourceView self erased source) with
        | .ok merged => ResolveInherit fuel self merged source
        | .error e => .error e

/-- The profile has a property whose key is `Inherit`. -/
def HasInherit (game : ConfigObjectData) : Prop :=
  ∃ p ∈ game.Properties, p.1 = "Inherit"

end Config

/-! ## Effects -/

namespace SDR

open rapidjson

/-- What an embedded function does to the world outside it, in the order in
which it does it. -/
inductive Event where
  /-- A module handler is called: `handler.Function(prop.second)`. -/
  | handlerCalled (name : String) (value : Value)
  /-- `SDR::Log::Message("SDR: Creating %d game modules\n", ...)` -/
  | messageCreating (count : Nat)
  /-- `SDR::Log::Warning("SDR: No handler found for \"%s\"\n", name)` -/
  | warningNoHandler (name : String)
  /-- `SDR::Log::Message("SDR: Enabled module \"%s\"\n", name)` -/
  | messageEnabled (name : String)
  /-- The call `MH_CreateHookEx(target, detour, &original)` of the hooking subsystem. -/
  | MH_CreateHookEx (target : Nat) (detour : Nat)
  /-- The call `MH_EnableHook(target)` of the hooking subsystem. -/
  | MH_EnableHook (target : Nat)
  /-- A pointer is read from memory at this address. -/
  | memoryRead (address : Nat)
  /-- The call `SDR::Library::Load()`, which attaches the engine. -/
  | LibraryLoad

/-- Modelled from the spec: `SDR::String::EndsWith(str, end)` is declared in
`SDR Shared\String.hpp`, which is not among the sources; a profile is matched
when its "name is a suffix of the current host's identifying path", so it is
the test that `ending` is a suffix of `str`. -/
def String.EndsWith (str ending : String) : Bool :=
  ending.data.isSuffixOf str.data

/-- `SDR::ModuleHandlerData`: the name of a module and its activation function,
which either returns or fails. -/
structure ModuleHandlerData where
  Name : String
  Function : Value → Result Unit

end SDR

/-! ## Profile matching and activation (`Config`) -/

namespace Config

open SDR rapidjson

/-- The members that `Config::MemberLoop(node, callback)` goes through:
`MemberBegin` and `MemberEnd` assert that the node is an object. -/
def MemberLoop.members : Value → Result (List (String × Value))
  | .obj members => .ok members
  | _ => .error .assertion

/-- The first `MemberLoop` of `Config::PopulateAndFindObject`: every member of
the document becomes a profile at the end of `dest`, with the members of its
value as properties, in document order. -/
def PopulateAndFindObject.populate :
    List (String × Value) → List ConfigObjectData → Result (List ConfigObjectData)
  | [], dest => .ok dest
  | gameit :: rest, dest =>
    match MemberLoop.members gameit.2 with
    | .ok gamedata =>
      PopulateAndFindObject.populate rest
        (dest ++ [{ ObjectName := gameit.1, Properties := gamedata }])
    | .error e => .error e

/-- The loop `for (auto& obj : dest)` of `Config::PopulateAndFindObject`, from
the element of index `k` on: the first profile whose name ends `gamename`, with
its index (the pointer `&obj`), or `none` for `nullptr`. -/
def PopulateAndFindObject.find (gamename : String) :
    List ConfigObjectData → Nat → Option (Nat × ConfigObjectData)
  | [], _ => none
  | obj :: rest, k =>
    if String.EndsWith gamename obj.ObjectName then some (k, obj)
    else PopulateAndFindObject.find gamename rest (k + 1)

/-- `Config::PopulateAndFindObject(document, dest)`. `gamename` is what
`SDR::Library::GetGamePath()` returns. The result is `dest` after the call and
the object found. -/
def PopulateAndFindObject (gamename : String) (document : Value)
    (dest : List ConfigObjectData) :
    Result (List ConfigObjectData × Option (Nat × ConfigObjectData)) :=
  match MemberLoop.members document with
  | .error e => .error e
  | .ok games =>
    match PopulateAndFindObject.populate games dest with
    | .error e => .error e
    | .ok dest => .ok (dest, PopulateAndFindObject.find gamename dest 0)

/-- `Config::PrintModuleState(value, name)`. -/
def PrintModuleState (value : Bool) (name : String) : List Event :=
  if !value then [.warningNoHandler name] else [.messageEnabled name]

/-- The loop `for (auto& handler : MainApplication.ModuleHandlers)` of
`Config::CallGameHandlers` for the property `prop`: what it does, and either
`found` or the failure that leaves the function. An `SDR::Error::Exception`
thrown by the handler is caught, and `SDR::Error::Make` in the `catch` block
throws in its turn; any other failure of the handler is not caught. -/
def CallGameHandlers.handlerLoop (prop : String × Value) :
    List ModuleHandlerData → List Event × Result Bool
  | [] => ([], .ok false)
  | handler :: rest =>
    if prop.1 = handler.Name then
      match handler.Function prop.2 with
      | .ok () => ([.handlerCalled handler.Name prop.2], .ok true)
      | .error (.raised _) =>
        ([.handlerCalled handler.Name prop.2],
          .error (.raised (.couldNotEnableModule handler.Name)))
      | .error e => ([.handlerCalled handler.Name prop.2], .error e)
    else CallGameHandlers.handlerLoop prop rest

/-- The loop `for (auto& prop : game->Properties)` of
`Config::CallGameHandlers`. -/
def CallGameHandlers.propLoop (ModuleHandlers : List ModuleHandlerData) :
    List (String × Value) → List Event × Result Unit
  | [] => ([], .ok ())
  | prop :: rest =>
    if prop.1 = "DisplayName" then CallGameHandlers.propLoop ModuleHandlers rest
    else if prop.1 = "ExecutableName" then CallGameHandlers.propLoop ModuleHandlers rest
    else
      match CallGameHandlers.handlerLoop prop ModuleHandlers with
      | (events, .ok found) =>
        let tail := CallGameHandlers.propLoop ModuleHandlers rest
        (events ++ PrintModuleState found prop.1 ++ tail.1, tail.2)
      | (events, .error e) => (events, .error e)

/-- What a call leaves behind: the events, the result, and the two global
vectors `MainApplication.ModuleHandlers` and `Config::GameConfigs`. -/
structure Outcome where
  log : List Event
  result : Result Unit
  ModuleHandlers : List ModuleHandlerData
  GameConfigs : List ConfigObjectData

/-- `Config::CallGameHandlers(game)`. `MainApplication.ModuleHandlers.clear()`
is reached only when no failure leaves the loop. -/
def CallGameHandlers (ModuleHandlers : List ModuleHandlerData)
    (GameConfigs : List ConfigObjectData) (game : ConfigObjectData) : Outcome :=
  match CallGameHandlers.propLoop ModuleHandlers game.Properties with
  | (events, .ok ()) =>
    { log := .messageCreating ModuleHandlers.length :: events, result := .ok (),
      ModuleHandlers := [], GameConfigs := GameConfigs }
  | (events, .error e) =>
    { log := .messageCreating ModuleHandlers.length :: events, result := .error e,
      ModuleHandlers := ModuleHandlers, GameConfigs := GameConfigs }

/-- `Config::SetupGame()`. `file` is the document that `SDR::Json::FromFile`
reads from `GameConfig.json`, or `none` when it throws; `gamename` is what
`SDR::Library::GetGamePath()` returns; `fuel` bounds the recursion of
`ResolveInherit`. -/
def SetupGame (fuel : Nat) (file : Option Value) (gamename : String)
    (ModuleHandlers : List ModuleHandlerData) (GameConfigs : List ConfigObjectData) : Outcome :=
  match file with
  | none =>
    { log := [], result := .error (.raised .gameConfigNotFound),
      ModuleHandlers := ModuleHandlers, GameConfigs := GameConfigs }
  | some document =>
    match PopulateAndFindObject gamename document GameConfigs with
    | .error e =>
      { log := [], result := .error e, ModuleHandlers := ModuleHandlers,
        GameConfigs := GameConfigs }
    | .ok (dest, none) =>
      { log := [], result := .error (.raised .currentGameNotFound),
        ModuleHandlers := ModuleHandlers, GameConfigs := dest }
    | .ok (dest, some (k, object)) =>
      match ResolveInherit fuel (some k) object dest with
      | .error e =>
        { log := [], result := .error e, ModuleHandlers := ModuleHandlers, GameConfigs := dest }
      | .ok resolved =>
        let called := CallGameHandlers ModuleHandlers (dest.set k resolved) resolved
        match called.result with
        | .ok () => { called with GameConfigs := [] }
        | .error _ => called

/-- What the call of a handler leaves of its failure: an
`SDR::Error::Exception` is replaced by the error of the `catch` block. -/
def rethrown (name : String) : Failure → Failure
  | .raised _ => .raised (.couldNotEnableModule name)
  | e => e

/-- The document that holds the profiles of a collection, in order. -/
def toDocument (profiles : List ConfigObjectData) : Value :=
  .obj (profiles.map (fun game => (game.ObjectName, Value.obj game.Properties)))

/-- A property that `Config::CallGameHandlers` passes over: a key that only the
launcher uses. -/
def IsLauncherKey (key : String) : Prop :=
  key = "DisplayName" ∨ key = "ExecutableName"

instance instDecidableIsLauncherKey (key : String) : Decidable (IsLauncherKey key) :=
  instDecidableOr

/-- What activation is to do for one property: nothing for a launcher key; the
call of the handler of that name and the message, when there is such a handler;
the warning otherwise. -/
def expectedEvents (ModuleHandlers : List ModuleHandlerData) (prop : String × Value) :
    List Event :=
  if IsLauncherKey prop.1 then []
  else if ModuleHandlers.any (fun handler => prop.1 == handler.Name) then
    [.handlerCalled prop.1 prop.2, .messageEnabled prop.1]
  else [.warningNoHandler prop.1]

/-- What activation is to do for the properties of a profile, in order. -/
def expectedLog (ModuleHandlers : List ModuleHandlerData) :
    List (String × Value) → List Event
  | [] => []
  | prop :: rest => expectedEvents ModuleHandlers prop ++ expectedLog ModuleHandlers rest

end Config

/-! ## The named registry (`Config::Registry`) -/

namespace Config.Registry

/-- `DataType::TypeIndex::Type`. -/
inductive TypeIndex where
  | Invalid
  | UInt32
  deriving DecidableEq

/-- `DataType::TypeReturn<T>`: the type, and the pointer `Address`, which is
null (`none`) or points to the value of the entry (`some` of that value). -/
structure TypeReturn where
  TypeNumber : TypeIndex
  Address : Option Nat

/-- `TypeReturn::operator bool`: `Address && Type != TypeIndex::Invalid`. -/
def TypeReturn.toBool (r : TypeReturn) : Bool :=
  r.Address.isSome && r.TypeNumber != .Invalid

/-- `TypeReturn::Get`: `*Address`. -/
def TypeReturn.Get (r : TypeReturn) : Nat :=
  r.Address.getD 0

/-- `Config::Registry::DataType`: `Name` is a `const char*`, the address at
which the name stands (the entry holds the pointer, not a copy of the text;
0 is `nullptr`); then the type, and the one member `Value_U32` of the union (a
`uint32_t`). -/
structure DataType where
  Name : Nat
  TypeNumber : TypeIndex
  Value_U32 : Nat

/-- `DataType::SetValue<uint32_t>(value)`. -/
def DataType.SetValue (d : DataType) (value : Nat) : DataType :=
  { d with TypeNumber := .UInt32, Value_U32 := value }

/-- `DataType::GetActiveValue<uint32_t>()`. -/
def DataType.GetActiveValue (d : DataType) : TypeReturn :=
  match d.TypeNumber with
  | .UInt32 => { TypeNumber := d.TypeNumber, Address := some d.Value_U32 }
  | _ => { TypeNumber := .Invalid, Address := none }

/-- `Config::Registry::InsertKeyValue(name, value)` on the vector `KeyValues`:
a new entry at the end, which keeps the pointer `name` that the caller gives.
(The member of the union is not initialised before `SetValue`; 0 stands for
it.) -/
def InsertKeyValue (KeyValues : List DataType) (name : Nat) (value : Nat) : List DataType :=
  let newtype : DataType := { Name := 0, TypeNumber := .Invalid, Value_U32 := 0 }
  let newtype : DataType := { newtype with Name := name }
  let newtype : DataType := newtype.SetValue value
  KeyValues ++ [newtype]

end Config.Registry

namespace SDR

open rapidjson Config.Registry

/-- `SDR::ModuleShared::Registry::SetKeyValue(name, value)`; `name` is the
pointer that the caller gives. -/
def ModuleShared.Registry.SetKeyValue (KeyValues : List DataType) (name : Nat)
    (value : Nat) : List DataType :=
  InsertKeyValue KeyValues name value

/-- The loop of `SDR::ModuleShared::Registry::GetKeyValue`; `value` is what
`*value` holds. `strings` gives the text of the C string that stands at an
address when the lookup is made, and `name` is the text that the argument
`name` points to: `strcmp(keyvalue.Name, name) == 0` reads the text at the
stored pointer and compares it with `name`. What the buffer held when
`SetKeyValue` was called plays no part; for a buffer that was written again or
released since, `strings` is what the read finds there. -/
def ModuleShared.Registry.GetKeyValue.loop (strings : Nat → String) (name : String) :
    List DataType → Nat → Bool × Nat
  | [], value => (false, value)
  | keyvalue :: rest, value =>
    if strings keyvalue.Name = name then
      let active := keyvalue.GetActiveValue
      (true, if active.toBool then active.Get else value)
    else ModuleShared.Registry.GetKeyValue.loop strings name rest value

/-- `SDR::ModuleShared::Registry::GetKeyValue(name, value)`: the returned
`bool` and what `*value` holds on return. -/
def ModuleShared.Registry.GetKeyValue (strings : Nat → String) (KeyValues : List DataType)
    (name : String) : Bool × Nat :=
  ModuleShared.Registry.GetKeyValue.loop strings name KeyValues 0

/-- A call `SetKeyValue(name, value)`: the pointer `name`, the text that stood
at that address when the call was made, and the value. -/
structure ModuleShared.Registry.Call where
  name : Nat
  text : String
  value : Nat
  deriving DecidableEq

/-- The registry after a sequence of calls of `SetKeyValue`, the first call
first. Only the pointer and the value of a call reach the registry. -/
def ModuleShared.Registry.afterCalls (calls : List ModuleShared.Registry.Call) : List DataType :=
  calls.foldl
    (fun KeyValues call => ModuleShared.Registry.SetKeyValue KeyValues call.name call.value) []

/-! ## Virtual tables -/

/-- Modelled from the spec: `SDR::Json::GetString` is declared in
`SDR Shared\Json.hpp`, which is not among the sources. It returns the string
held by the member `name` (the first of that name), and raises an error when
the member is absent or is not a string. -/
def Json.GetString : Value → String → Result String
  | .obj members, name =>
    match members.find? (fun m => m.1 == name) with
    | some (_, .str s) => .ok s
    | _ => .error (.raised (.jsonMember name))
  | _, name => .error (.raised (.jsonMember name))

/-- Modelled from the spec: `SDR::Error::ThrowIfNull(ptr, ...)` is declared in
a header that is not among the sources; a null pointer "is always an error",
so it raises `e` when `ptr` is null and returns otherwise. -/
def Error.ThrowIfNull (ptr : Nat) (e : Error) : Result Unit :=
  if ptr = 0 then .error (.raised e) else .ok ()

/-- `SDR::GetVirtualIndexFromJson`. -/
def GetVirtualIndexFromJson (value : Value) : Result Int :=
  Json.GetInt value "VTIndex"

/-- `SDR::GetVirtualAddressFromIndex(ptr, index)`: `*((void***)ptr)` is read,
then the entry `vtable[index]`. `mem` gives the pointer stored at an address,
`ptrsize` is the size of a pointer. The result is the two reads and the
address returned. -/
def GetVirtualAddressFromIndex (ptrsize : Nat) (mem : Nat → Nat) (ptr : Nat) (index : Int) :
    List Event × Nat :=
  let vtable := mem ptr
  let slot := ((vtable : Int) + (ptrsize : Int) * index).toNat
  ([.memoryRead ptr, .memoryRead slot], mem slot)

/-- `SDR::GetVirtualAddressFromJson(ptr, value)`, the overload that is given the
instance pointer. -/
def GetVirtualAddressFromJson.ofPtr (ptrsize : Nat) (mem : Nat → Nat) (ptr : Nat)
    (value : Value) : List Event × Result Nat :=
  match GetVirtualIndexFromJson value with
  | .error e => ([], .error e)
  | .ok index =>
    let read := GetVirtualAddressFromIndex ptrsize mem ptr index
    (read.1, .ok read.2)

/-- `SDR::GetVirtualAddressFromJson(value)`, the overload that takes the
instance pointer from the registry entry named by `VTPtrName`. -/
def GetVirtualAddressFromJson (ptrsize : Nat) (mem : Nat → Nat) (strings : Nat → String)
    (KeyValues : List DataType) (value : Value) : List Event × Result Nat :=
  match Json.GetString value "VTPtrName" with
  | .error e => ([], .error e)
  | .ok instanceName =>
    let found := ModuleShared.Registry.GetKeyValue strings KeyValues instanceName
    let res := found.1
    let ptrnum := found.2
    if !res then ([], .error (.raised (.virtualObjectNotFound instanceName)))
    else
      let ptr := ptrnum
      match Error.ThrowIfNull ptr (.registryValueNull instanceName) with
      | .error e => ([], .error e)
      | .ok () => GetVirtualAddressFromJson.ofPtr ptrsize mem ptr value

end SDR

/-! ## Address resolution and hook creation -/

namespace rapidjson

/-- `Value::FindMember(name)`, for an object: the value of the first member of
that name, `none` for `MemberEnd()`. -/
def Value.FindMember : Value → String → Option Value
  | .obj members, name => (members.find? (fun m => m.1 == name)).map (fun m => m.2)
  | _, _ => none

/-- `Value::GetInt()`, which asserts that the value is an integer. -/
def Value.GetInt : Value → SDR.Result Int
  | .int n => .ok n
  | _ => .error .assertion

end rapidjson

namespace SDR

open rapidjson

/-- The classes `SDR::AddressFinder` and `SDR::RelativeJumpFunctionFinder` are
declared in a header that is not among the sources. What their `Get()` returns
is taken as given: the address found for a module, a pattern and an offset,
and the target of the jump at an address; 0 is the null pointer. -/
structure Finders where
  AddressFinder : String → BytePattern → Int → Nat
  RelativeJumpFunctionFinder : Nat → Nat

/-- `SDR::GetAddressFromJsonPattern(value)`. -/
def GetAddressFromJsonPattern (init : BytePattern.Entry) (finders : Finders) (value : Value) :
    Result Nat :=
  match Json.GetString value "Module" with
  | .error e => .error e
  | .ok moduleName =>
    match Json.GetString value "Pattern" with
    | .error e => .error e
    | .ok patternstr =>
      let offset : Result Int :=
        match value.FindMember "Offset" with
        | some member => member.GetInt
        | none => .ok 0
      match offset with
      | .error e => .error e
      | .ok offset =>
        let isjump : Bool := value.HasMember "IsRelativeJump"
        match GetPatternFromString init patternstr.data with
        | .error e => .error e
        | .ok pattern =>
          let address := finders.AddressFinder moduleName pattern offset
          match Error.ThrowIfNull address .nullPointer with
          | .error e => .error e
          | .ok () =>
            if isjump then
              let jumper := finders.RelativeJumpFunctionFinder address
              match Error.ThrowIfNull jumper .nullPointer with
              | .error e => .error e
              | .ok () => .ok jumper
            else .ok address

/-- The status `MH_OK` of the hooking subsystem. -/
def MH_OK : Int := 0

/-- The hooking subsystem (MinHook), which is not part of the repository: the
status that `MH_CreateHookEx(target, detour, &original)` returns with the
address it stores in `original`, and the status that `MH_EnableHook(target)`
returns. -/
structure MinHook where
  CreateHookEx : Nat → Nat → Int × Nat
  EnableHook : Nat → Int

/-- `SDR::HookModuleBare`. -/
structure HookModuleBare where
  TargetFunction : Nat
  NewFunction : Nat
  OriginalFunction : Nat
  deriving DecidableEq

/-- `SDR::CreateHookBare(hook, override, address)`: the calls of the hooking
subsystem, and the hook record on return. -/
def CreateHookBare (mh : MinHook) (hook : HookModuleBare) (override address : Nat) :
    List Event × Result HookModuleBare :=
  let hook := { hook with TargetFunction := address, NewFunction := override }
  let created := mh.CreateHookEx hook.TargetFunction hook.NewFunction
  let hook := { hook with OriginalFunction := created.2 }
  if created.1 ≠ MH_OK then
    ([.MH_CreateHookEx hook.TargetFunction hook.NewFunction],
      .error (.raised (.couldNotCreateHook created.1)))
  else
    let res := mh.EnableHook hook.TargetFunction
    if res ≠ MH_OK then
      ([.MH_CreateHookEx hook.TargetFunction hook.NewFunction, .MH_EnableHook hook.TargetFunction],
        .error (.raised (.couldNotEnableHook res)))
    else
      ([.MH_CreateHookEx hook.TargetFunction hook.NewFunction, .MH_EnableHook hook.TargetFunction],
        .ok hook)

/-- `SDR::CreateHookBareShort(hook, override, value)`. -/
def CreateHookBareShort (init : BytePattern.Entry) (finders : Finders) (mh : MinHook)
    (hook : HookModuleBare) (override : Nat) (value : Value) :
    List Event × Result HookModuleBare :=
  match GetAddressFromJsonPattern init finders value with
  | .error e => ([], .error e)
  | .ok address => CreateHookBare mh hook override address

/-- The event is a call of the hooking subsystem with a null target. -/
def IsNullTargetCall : Event → Prop
  | .MH_CreateHookEx target _ => target = 0
  | .MH_EnableHook target => target = 0
  | _ => False

end SDR

/-! ## Interception of library loads (`LoadLibraryIntercept`) -/

namespace LoadLibraryIntercept

open SDR

/-- `Common::CheckTable(table, name)`: the callback of the first entry whose
text ends `name` is called, and the loop is left. A callback is given by the
events of its call. -/
def Common.CheckTable : List (String × List Event) → String → List Event
  | [], _ => []
  | entry :: rest, name =>
    if String.EndsWith name entry.1 then entry.2
    else Common.CheckTable rest name

/-- `Common::Load(module, name)` for a name of `char`: the table has the one
entry `"server.dll"`, whose callback calls `SDR::Library::Load()`. -/
def Common.Load (_module : Nat) (name : String) : List Event :=
  Common.CheckTable [("server.dll", [.LibraryLoad])] name

/-- `Common::Load(module, name)` for a name of `wchar_t`: the table is empty. -/
def Common.LoadWide (_module : Nat) (name : String) : List Event :=
  Common.CheckTable [] name

/-- The four intercepted entry points: `LoadLibraryA`, `LoadLibraryExA`,
`LoadLibraryW`, `LoadLibraryExW`. -/
inductive Api where
  | A
  | ExA
  | W
  | ExW
  deriving DecidableEq

/-- An intercepted load: the entry point, the name, and the module handle `ret`
that the original function returns (0 when the load fails). -/
structure InterceptedLoad where
  api : Api
  name : String
  ret : Nat
  deriving DecidableEq

/-- `A::Override`, `ExA::Override`, `W::Override` and `ExW::Override`, after
`ThisHook.GetOriginal()` has returned `ret`: `Common::Load` is called when `ret`
is not null. -/
def Override (load : InterceptedLoad) : List Event :=
  if load.ret ≠ 0 then
    match load.api with
    | .A => Common.Load load.ret load.name
    | .ExA => Common.Load load.ret load.name
    | .W => Common.LoadWide load.ret load.name
    | .ExW => Common.LoadWide load.ret load.name
  else []

/-- A sequence of intercepted loads, in the order in which the original
functions return. An override calls the original function first, so a load
made from inside another one (a re-entrant load) stands before the load that
encloses it. -/
def intercept : List InterceptedLoad → List Event
  | [] => []
  | load :: rest => Override load ++ intercept rest

/-- The intercepted load makes the interceptor trigger the attachment: it is a
load by a `char` name that ends in `"server.dll"`, and it has succeeded. -/
def Triggers (load : InterceptedLoad) : Bool :=
  (load.api = .A || load.api = .ExA) && load.ret != 0 && String.EndsWith load.name "server.dll"

end LoadLibraryIntercept

/-! ## Address resolution by the shape of the descriptor -/

namespace SDR

open rapidjson Config.Registry

/-- `SDR::JsonHasPattern`. -/
def JsonHasPattern (value : Value) : Bool :=
  if value.HasMember "Pattern" then true else false

/-- `SDR::JsonHasVirtualIndexOnly`. -/
def JsonHasVirtualIndexOnly (value : Value) : Bool :=
  if value.HasMember "VTIndex" then true else false

/-- `SDR::JsonHasVirtualIndexAndNamePtr`. -/
def JsonHasVirtualIndexAndNamePtr (value : Value) : Bool :=
  if JsonHasVirtualIndexOnly value then
    if value.HasMember "VTPtrName" then true else false
  else false

/-- `SDR::GetAddressFromJsonFlex(value)`: the reads of memory it makes, and the
address it returns (0 for `nullptr`) or the failure that leaves it. -/
def GetAddressFromJsonFlex (init : BytePattern.Entry) (finders : Finders) (ptrsize : Nat)
    (mem : Nat → Nat) (strings : Nat → String) (KeyValues : List DataType) (value : Value) :
    List Event × Result Nat :=
  if JsonHasPattern value then
    ([], GetAddressFromJsonPattern init finders value)
  else if JsonHasVirtualIndexAndNamePtr value then
    GetVirtualAddressFromJson ptrsize mem strings KeyValues value
  else ([], .ok 0)

end SDR

/-! # Theorems -/

open SDR

namespace Memory

/-! ## The scanner -/

theorem DataCompare.loop_eq (pattern : List BytePattern.Entry) :
    ∀ (data : List Nat) (index : Nat), pattern.length ≤ data.length →
      ((∀ (k : Nat) (e : BytePattern.Entry), pattern[k]? = some e → e.Unknown = false → data[k]? = some e.Value) →
        DataCompare.loop pattern.length data pattern index
          = .ok (some (index + pattern.length))) ∧
      (¬ (∀ (k : Nat) (e : BytePattern.Entry), pattern[k]? = some e → e.Unknown = false → data[k]? = some e.Value) →
        DataCompare.loop pattern.length data pattern index = .ok none) := by
  induction pattern with
  | nil =>
    intro data index _
    refine ⟨fun _ => by simp [DataCompare.loop], fun h => absurd (by simp) h⟩
  | cons byte rest ih =>
    intro data index hlen
    cases data with
    | nil => simp at hlen
    | cons d data' =>
      have hlen' : rest.length ≤ data'.length := by simpa using hlen
      have key : (∀ (k : Nat) (e : BytePattern.Entry), (byte :: rest)[k]? = some e → e.Unknown = false →
            (d :: data')[k]? = some e.Value) ↔
          ((byte.Unknown = false → d = byte.Value) ∧
            ∀ (k : Nat) (e : BytePattern.Entry), rest[k]? = some e → e.Unknown = false → data'[k]? = some e.Value) := by
        constructor
        · intro h
          refine ⟨fun hu => ?_, fun k e hk hu => ?_⟩
          · simpa using h 0 byte (by simp) hu
          · simpa using h (k + 1) e (by simpa using hk) hu
        · rintro ⟨h0, hs⟩ k e hk hu
          cases k with
          | zero =>
            simp at hk
            subst hk
            simp [h0 hu]
          | succ k => simpa using hs k e (by simpa using hk) hu
      rw [key]
      simp only [List.length_cons, DataCompare.loop, List.tail_cons]
      obtain ⟨ih1, ih2⟩ := ih data' (index + 1) hlen'
      by_cases hu : byte.Unknown = true
      · rw [if_pos hu]
        refine ⟨fun h => ?_, fun h => ?_⟩
        · rw [ih1 h.2]; congr 2; omega
        · exact ih2 (fun h' => h ⟨by simp [hu], h'⟩)
      · have hu' : byte.Unknown = false := by simpa using hu
        rw [if_neg hu]
        by_cases hd : d = byte.Value
        · rw [if_neg (not_not.mpr hd)]
          refine ⟨fun h => ?_, fun h => ?_⟩
          · rw [ih1 h.2]; congr 2; omega
          · exact ih2 (fun h' => h ⟨fun _ => hd, h'⟩)
        · rw [if_pos hd]
          exact ⟨fun h => absurd (h.1 hu') hd, fun _ => rfl⟩

theorem DataCompare_drop (R : List Nat) (P : BytePattern) (i : Nat)
    (hfit : i + P.length ≤ R.length) :
    (MatchesAt R P i → DataCompare (R.drop i) P P.length = .ok true) ∧
    (¬ MatchesAt R P i → DataCompare (R.drop i) P P.length = .ok false) := by
  have hlen : P.length ≤ (R.drop i).length := by simp; omega
  obtain ⟨h1, h2⟩ := DataCompare.loop_eq P (R.drop i) 0 hlen
  have key : MatchesAt R P i ↔
      ∀ (k : Nat) (e : BytePattern.Entry), P[k]? = some e → e.Unknown = false → (R.drop i)[k]? = some e.Value := by
    simp only [MatchesAt, List.getElem?_drop]
    exact ⟨fun h => h.2, fun h => ⟨hfit, h⟩⟩
  rw [key]
  refine ⟨fun h => ?_, fun h => ?_⟩
  · simp [DataCompare, h1 h]
  · simp [DataCompare, h2 h]

theorem scanBound_of_le (w searchlength length : Nat) (hle : length ≤ searchlength)
    (hlt : searchlength < 2 ^ w) : scanBound w searchlength length = searchlength - length := by
  unfold scanBound
  have h2 : ((2 : Int) ^ w) = ((2 ^ w : Nat) : Int) := by push_cast; rfl
  rw [Int.emod_eq_of_lt (by omega) (by rw [h2]; omega)]
  omega

theorem FindPattern.loop_found (w : Nat) (R : List Nat) (P : BytePattern) (bound i0 : Nat)
    (hb : bound < 2 ^ w) (hfit : bound + P.length ≤ R.length) (hi0 : i0 ≤ bound)
    (hm : MatchesAt R P i0) :
    ∀ (fuel i : Nat), i ≤ i0 → i0 - i < fuel → (∀ j, i ≤ j → j < i0 → ¬ MatchesAt R P j) →
      FindPattern.loop w R P bound fuel i = .ok (some i0) := by
  intro fuel
  induction fuel with
  | zero => intro i _ h; omega
  | succ fuel ih =>
    intro i hi hf hno
    have hib : i ≤ bound := by omega
    simp only [FindPattern.loop, hib, if_true]
    by_cases hii : i = i0
    · subst hii
      rw [(DataCompare_drop R P i (by omega)).1 hm]
    · rw [(DataCompare_drop R P i (by omega)).2 (hno i (le_refl _) (by omega))]
      simp only
      rw [Nat.mod_eq_of_lt (by omega)]
      exact ih (i + 1) (by omega) (by omega) (fun j hj hj' => hno j (by omega) hj')

theorem FindPattern.loop_notFound (w : Nat) (R : List Nat) (P : BytePattern) (bound : Nat)
    (hb : bound + 1 < 2 ^ w) (hfit : bound + P.length ≤ R.length) :
    ∀ (fuel i : Nat), i ≤ bound + 1 → bound + 1 - i < fuel →
      (∀ j, i ≤ j → j ≤ bound → ¬ MatchesAt R P j) →
      FindPattern.loop w R P bound fuel i = .ok none := by
  intro fuel
  induction fuel with
  | zero => intro i _ h; omega
  | succ fuel ih =>
    intro i hi hf hno
    by_cases hib : i ≤ bound
    · simp only [FindPattern.loop, hib, if_true]
      rw [(DataCompare_drop R P i (by omega)).2 (hno i (le_refl _) hib)]
      simp only
      rw [Nat.mod_eq_of_lt (by omega)]
      exact ih (i + 1) (by omega) (by omega) (fun j hj hj' => hno j (by omega) hj')
    · simp only [FindPattern.loop, hib, if_false]

/-- C1. For every region `R` (of a length that a `size_t` holds) and every
non-empty pattern `P` that matches at some start offset inside the region,
`Memory::FindPattern(R, |R|, P)` returns the address of the lowest such offset:
the returned offset matches and no smaller offset does. -/
theorem FindPattern_lowest_match (w : Nat) (R : List Nat) (P : BytePattern)
    (hR : R.length < 2 ^ w) (hP : P ≠ []) (hex : ∃ i, MatchesAt R P i) :
    ∃ i0, FindPattern w R R.length P = .ok (some i0) ∧ MatchesAt R P i0 ∧
      ∀ j, j < i0 → ¬ MatchesAt R P j := by
  classical
  have _ := hP
  refine ⟨Nat.find hex, ?_, Nat.find_spec hex, fun j hj => Nat.find_min hex hj⟩
  have hm := Nat.find_spec hex
  have hle : P.length ≤ R.length := by have := hm.1; omega
  unfold FindPattern
  rw [scanBound_of_le w R.length P.length hle hR]
  exact FindPattern.loop_found w R P (R.length - P.length) (Nat.find hex) (by omega) (by omega)
    (by have := hm.1; omega) hm (2 ^ w + 1) 0 (Nat.zero_le _)
    (by have := hm.1; omega) (fun j _ hj => Nat.find_min hex hj)

theorem FindPattern_lowest_match_witness :
    ∃ i0, FindPattern 32 [0x00, 0x4D, 0x5A, 0x4D, 0x5A] 5 [⟨0x4D, false⟩, ⟨0, true⟩] = .ok (some i0) ∧
      MatchesAt [0x00, 0x4D, 0x5A, 0x4D, 0x5A] [⟨0x4D, false⟩, ⟨0, true⟩] i0 ∧
      ∀ j, j < i0 → ¬ MatchesAt [0x00, 0x4D, 0x5A, 0x4D, 0x5A] [⟨0x4D, false⟩, ⟨0, true⟩] j :=
  FindPattern_lowest_match 32 [0x00, 0x4D, 0x5A, 0x4D, 0x5A] [⟨0x4D, false⟩, ⟨0, true⟩]
    (by decide) (by decide)
    ⟨1, by decide, by
      intro k e hk hu
      match k, hk with
      | 0, hk => simp at hk; subst hk; rfl
      | 1, hk => simp at hk; subst hk; simp at hu
      | k + 2, hk => simp at hk⟩

/-- When the pattern fits in the region, the scan ends with `nullptr` if no
start offset matches. -/
theorem FindPattern_notFound_of_fits (w : Nat) (R : List Nat) (P : BytePattern)
    (hR : R.length < 2 ^ w) (hP : P ≠ []) (hfit : P.length ≤ R.length)
    (hno : ∀ i, i ≤ R.length - P.length → ¬ MatchesAt R P i) :
    FindPattern w R R.length P = .ok none := by
  have hpos : 0 < P.length := List.length_pos.mpr hP
  unfold FindPattern
  rw [scanBound_of_le w R.length P.length hfit hR]
  exact FindPattern.loop_notFound w R P (R.length - P.length) (by omega) (by omega)
    (2 ^ w + 1) 0 (Nat.zero_le _) (by omega) (fun j _ hj => hno j hj)

/-- C2, the code at a pattern longer than the region. With a region of the one
byte `4D` and the pattern `4D ??`, the bound `searchlength - length` is
`1 - 2 = 2^32 - 1` in `size_t` arithmetic, the scan starts, and
`Memory::FindPattern` returns the address of offset 0, although no start offset
is valid. With the pattern `4D 5A` the comparison reads the byte at offset 1,
beyond the region: the result is the address of offset 0 when the byte after
the region is `5A`, and the read leaves the buffer when nothing follows. -/
theorem FindPattern_pattern_longer_than_region :
    scanBound 32 1 2 = 2 ^ 32 - 1 ∧
    FindPattern 32 [0x4D] 1 [⟨0x4D, false⟩, ⟨0, true⟩] = .ok (some 0) ∧
    (∀ i, ¬ MatchesAt [0x4D] [⟨0x4D, false⟩, ⟨0, true⟩] i) ∧
    FindPattern 32 [0x4D, 0x5A] 1 [⟨0x4D, false⟩, ⟨0x5A, false⟩] = .ok (some 0) ∧
    FindPattern 32 [0x4D] 1 [⟨0x4D, false⟩, ⟨0x5A, false⟩] = .error .outOfBounds := by
  refine ⟨by decide, by decide, ?_, by decide, by decide⟩
  intro i h
  have := h.1
  simp at this

end Memory

namespace SDR

/-! ## The pattern text parser -/

theorem isxdigit_bounds {c : Char} (h : isxdigit c = true) :
    (48 ≤ c.toNat ∧ c.toNat ≤ 57) ∨ (65 ≤ c.toNat ∧ c.toNat ≤ 70) ∨
      (97 ≤ c.toNat ∧ c.toNat ≤ 102) := by
  simp only [isxdigit, Bool.or_eq_true, Bool.and_eq_true, decide_eq_true_eq] at h
  omega

theorem hexDigitValue_le {c : Char} (h : isxdigit c = true) : hexDigitValue c ≤ 15 := by
  have hb := isxdigit_bounds h
  unfold hexDigitValue
  split_ifs <;> omega

theorem isspace_of_isxdigit {c : Char} (h : isxdigit c = true) : isspace c = false := by
  have hb := isxdigit_bounds h
  simp only [isspace, Bool.or_eq_false_iff, Bool.and_eq_false_imp, decide_eq_false_iff_not,
    decide_eq_true_eq]
  omega

theorem joinTokens_cons (t : List Char) (ts : List (List Char)) :
    joinTokens (t :: ts) = t ++ spaced ts := by
  induction ts generalizing t with
  | nil => simp [joinTokens, List.intercalate, spaced]
  | cons t' ts ih =>
    have := ih t'
    simp only [joinTokens, List.intercalate, List.intersperse, spaced] at this ⊢
    rw [List.flatten_cons, List.flatten_cons, this]
    simp

theorem deref_spaced_not_xdigit (ts : List (List Char)) :
    isxdigit (deref (spaced ts)) = false := by
  cases ts with
  | nil => exact (by decide : isxdigit (Char.ofNat 0) = false)
  | cons t ts => exact (by decide : isxdigit ' ' = false)

theorem strtol16_token (a b : Char) (rest : List Char) (ha : isxdigit a = true)
    (hb : isxdigit b = true) (hrest : isxdigit (deref rest) = false) :
    toUInt8 (strtol16 (a :: b :: rest)) = hexDigitValue a * 16 + hexDigitValue b := by
  have ha' := isxdigit_bounds ha
  have hb' := isxdigit_bounds hb
  have hva := hexDigitValue_le ha
  have hvb := hexDigitValue_le hb
  have hsp := isspace_of_isxdigit ha
  have htw : (a :: b :: rest).takeWhile isxdigit = [a, b] := by
    cases rest with
    | nil => simp [List.takeWhile, ha, hb]
    | cons c r =>
      have hc : isxdigit c = false := by simpa [deref] using hrest
      simp [List.takeWhile, ha, hb, hc]
  have h43 : a.toNat ≠ 43 := by omega
  have h45' : a.toNat ≠ 45 := by omega
  have hx : ¬ (a.toNat = 48 ∧ (b.toNat = 120 ∨ b.toNat = 88) ∧ isxdigit (deref rest) = true) := by
    omega
  unfold strtol16
  simp only [List.dropWhile, hsp]
  simp only [h43, h45', or_self, if_false, decide_False, Bool.false_eq_true]
  have hs : (match a :: b :: rest with
      | z :: x :: d :: r =>
        if z.toNat = 48 ∧ (x.toNat = 120 ∨ x.toNat = 88) ∧ isxdigit d = true then d :: r
        else a :: b :: rest
      | _ => a :: b :: rest) = a :: b :: rest := by
    cases rest with
    | nil => rfl
    | cons c r =>
      have : ¬ (a.toNat = 48 ∧ (b.toNat = 120 ∨ b.toNat = 88) ∧ isxdigit c = true) := by omega
      simp only [this, if_false]
  rw [hs, htw]
  simp only [List.foldl, Nat.zero_mul, Nat.zero_add, toUInt8]
  have : ((hexDigitValue a * 16 + hexDigitValue b : Nat) : Int) ≤ 2 ^ 31 - 1 := by
    have : hexDigitValue a * 16 + hexDigitValue b ≤ 255 := by omega
    omega
  rw [min_eq_left this]
  omega

theorem token_step (init : BytePattern.Entry) (t : List Char) (ts : List (List Char))
    (ht : WellFormedToken t) :
    (deref (t ++ spaced ts)).toNat ≠ 0 ∧ String.IsSpace (deref (t ++ spaced ts)) = false ∧
    advance2 (t ++ spaced ts) = some (spaced ts) ∧
    (if isxdigit (deref (t ++ spaced ts)) then
        { init with Unknown := false, Value := toUInt8 (strtol16 (t ++ spaced ts)) }
      else { init with Unknown := true }) = tokenEntry init t := by
  rcases ht with rfl | ⟨a, b, rfl, ha, hb⟩
  · refine ⟨(by decide : ('?' : Char).toNat ≠ 0), (by decide : String.IsSpace '?' = false),
      rfl, ?_⟩
    have h : isxdigit (deref ('?' :: '?' :: spaced ts)) = false := by
      exact (by decide : isxdigit '?' = false)
    simp [h, tokenEntry]
  · have hb' := isxdigit_bounds ha
    have hne : [a, b] ≠ ['?', '?'] := by
      intro h
      have : a = '?' := by simpa using (List.cons.inj h).1
      rw [this] at ha
      exact absurd ha (by decide)
    refine ⟨?_, ?_, rfl, ?_⟩
    · show a.toNat ≠ 0
      omega
    · exact isspace_of_isxdigit ha
    · have h : isxdigit (deref ([a, b] ++ spaced ts)) = true := ha
      have hv := strtol16_token a b (spaced ts) ha hb (deref_spaced_not_xdigit ts)
      simp only [List.cons_append, List.nil_append] at h hv ⊢
      simp only [h, if_true, hv, tokenEntry, hne, if_false]
      rfl

theorem GetPatternFromString.loop_spaced (init : BytePattern.Entry) (ts : List (List Char))
    (hts : ∀ t ∈ ts, WellFormedToken t) :
    ∀ (fuel : Nat) (ret : BytePattern), (spaced ts).length < fuel →
      GetPatternFromString.loop init fuel (some (spaced ts)) true ret
        = .ok (ret ++ ts.map (tokenEntry init)) := by
  induction ts with
  | nil =>
    intro fuel ret hf
    cases fuel with
    | zero => simp at hf
    | succ fuel => simp [spaced, GetPatternFromString.loop, deref]
  | cons t ts ih =>
    intro fuel ret hf
    cases fuel with
    | zero => simp at hf
    | succ fuel =>
      obtain ⟨_, _, h3, h4⟩ := token_step init t ts (hts t (List.mem_cons_self _ _))
      have hsp : String.IsSpace (deref (' ' :: (t ++ spaced ts))) = true := by
        exact (by decide : String.IsSpace ' ' = true)
      have hnz : (deref (' ' :: (t ++ spaced ts))).toNat ≠ 0 := by
        exact (by decide : (' ' : Char).toNat ≠ 0)
      have hlen : (spaced ts).length < fuel := by
        simp only [spaced, List.length_cons, List.length_append] at hf
        omega
      simp only [spaced, GetPatternFromString.loop, hnz, if_false, hsp, if_true, List.tail_cons,
        h3, h4]
      rw [ih (fun t' ht' => hts t' (List.mem_cons_of_mem _ ht')) fuel _ hlen]
      simp

/-- C3. For every non-empty sequence of tokens, each two hexadecimal digits or
`??`, joined by single spaces, `SDR::GetPatternFromString` returns one entry
per token, in order: a wildcard (`Unknown = true`) exactly for `??`, and
otherwise the entry whose `Value` is the hexadecimal value of the token. -/
theorem GetPatternFromString_wellFormed (init : BytePattern.Entry) (tokens : List (List Char))
    (hne : tokens ≠ []) (hts : ∀ t ∈ tokens, WellFormedToken t) :
    GetPatternFromString init (joinTokens tokens) = .ok (tokens.map (tokenEntry init)) ∧
    (tokens.map (tokenEntry init)).length = tokens.length ∧
    ∀ (i : Nat) (t : List Char), tokens[i]? = some t →
      ∃ e, (tokens.map (tokenEntry init))[i]? = some e ∧
        (e.Unknown = true ↔ t = ['?', '?']) ∧
        (t ≠ ['?', '?'] → ∃ a b, t = [a, b] ∧ e.Value = hexDigitValue a * 16 + hexDigitValue b) := by
  refine ⟨?_, by simp, ?_⟩
  · cases tokens with
    | nil => exact absurd rfl hne
    | cons t ts =>
      obtain ⟨h1, h2, h3, h4⟩ := token_step init t ts (hts t (List.mem_cons_self _ _))
      have hlen : (spaced ts).length < (t ++ spaced ts).length := by
        rcases hts t (List.mem_cons_self _ _) with rfl | ⟨a, b, rfl, _, _⟩ <;> simp <;> omega
      rw [joinTokens_cons]
      unfold GetPatternFromString
      simp only [GetPatternFromString.loop, h1, if_false, h2, Bool.false_eq_true, h3, h4]
      rw [GetPatternFromString.loop_spaced init ts
        (fun t' ht' => hts t' (List.mem_cons_of_mem _ ht')) _ _ hlen]
      simp
  · intro i t hi
    refine ⟨tokenEntry init t, by simp [hi], ?_, ?_⟩
    · have ht := hts t (List.getElem?_mem hi)
      rcases ht with rfl | ⟨a, b, rfl, ha, _⟩
      · simp [tokenEntry]
      · have hne' : [a, b] ≠ ['?', '?'] := by
          intro h
          have : a = '?' := by simpa using (List.cons.inj h).1
          rw [this] at ha
          exact absurd ha (by decide)
        simp [tokenEntry, hne']
    · intro hq
      rcases hts t (List.getElem?_mem hi) with rfl | ⟨a, b, rfl, _, _⟩
      · exact absurd rfl hq
      · exact ⟨a, b, rfl, by simp [tokenEntry, hq, deref]⟩

theorem GetPatternFromString_wellFormed_witness :
    GetPatternFromString ⟨0, false⟩ "4D 5A ?? ?? 90".toList
      = .ok [⟨0x4D, false⟩, ⟨0x5A, false⟩, ⟨0, true⟩, ⟨0, true⟩, ⟨0x90, false⟩] ∧
    Memory.FindPattern 32 [0x4D, 0x5A, 0x00, 0xFF, 0x90] 5
      [⟨0x4D, false⟩, ⟨0x5A, false⟩, ⟨0, true⟩, ⟨0, true⟩, ⟨0x90, false⟩] = .ok (some 0) :=
  ⟨(GetPatternFromString_wellFormed ⟨0, false⟩
      [['4', 'D'], ['5', 'A'], ['?', '?'], ['?', '?'], ['9', '0']] (by decide)
      (by
        intro t ht
        simp only [List.mem_cons, List.mem_singleton, List.not_mem_nil, or_false] at ht
        rcases ht with rfl | rfl | rfl | rfl | rfl
        · exact Or.inr ⟨'4', 'D', rfl, by decide, by decide⟩
        · exact Or.inr ⟨'5', 'A', rfl, by decide, by decide⟩
        · exact Or.inl rfl
        · exact Or.inl rfl
        · exact Or.inr ⟨'9', '0', rfl, by decide, by decide⟩)).1,
    by decide⟩

theorem advance2_hasLongToken (u : List Char) (x y z : Char) (post : List Char)
    (hu : ∀ c ∈ u, c.toNat ≠ 0)
    (hx : x.toNat ≠ 0 ∧ String.IsSpace x = false) (hy : y.toNat ≠ 0 ∧ String.IsSpace y = false)
    (hz : z.toNat ≠ 0 ∧ String.IsSpace z = false) :
    ∃ s, advance2 (u ++ x :: y :: z :: post) = some s ∧
      s.length < (u ++ x :: y :: z :: post).length ∧ (HasLongToken s ∨ StartsNonSpace s) := by
  match u, hu with
  | [], _ => exact ⟨z :: post, rfl, by simp, Or.inr ⟨z, post, rfl, hz⟩⟩
  | [c], _ => exact ⟨y :: z :: post, rfl, by simp, Or.inr ⟨y, z :: post, rfl, hy⟩⟩
  | c :: d :: u', hu =>
    refine ⟨u' ++ x :: y :: z :: post, rfl, by simp; omega, Or.inl ⟨u', x, y, z, post, rfl, ?_, hx, hy, hz⟩⟩
    intro e he
    exact hu e (by simp [he])

theorem GetPatternFromString.loop_formatting (init : BytePattern.Entry) :
    ∀ (fuel : Nat) (s : List Char) (shouldbespace : Bool) (ret : BytePattern), s.length < fuel →
      (HasLongToken s ∨ (shouldbespace = true ∧ StartsNonSpace s)) →
      GetPatternFromString.loop init fuel (some s) shouldbespace ret
        = .error (.raised .bytePairFormatting) := by
  intro fuel
  induction fuel with
  | zero => intro s _ _ h; simp at h
  | succ fuel ih =>
    intro s sbs ret hf h
    rcases h with ⟨u, x, y, z, post, rfl, hu, hx, hy, hz⟩ | ⟨rfl, c, rest, rfl, hc0, hcs⟩
    · have hd0 : (deref (u ++ x :: y :: z :: post)).toNat ≠ 0 := by
        cases u with
        | nil => exact hx.1
        | cons c u' => exact hu c (List.mem_cons_self _ _)
      simp only [GetPatternFromString.loop, hd0, if_false]
      by_cases hsp : String.IsSpace (deref (u ++ x :: y :: z :: post)) = true
      · cases u with
        | nil => exact absurd hsp (by simp [deref, hx.2])
        | cons c u' =>
          obtain ⟨s', h1, h2, h3⟩ := advance2_hasLongToken u' x y z post
            (fun e he => hu e (List.mem_cons_of_mem _ he)) hx hy hz
          simp only [List.cons_append] at hsp ⊢
          simp only [hsp, if_true, List.tail_cons, h1]
          apply ih
          · simp only [List.cons_append, List.length_cons] at hf
            omega
          · rcases h3 with h3 | h3
            · exact Or.inl h3
            · exact Or.inr ⟨rfl, h3⟩
      · simp only [hsp, if_false]
        cases sbs with
        | true => simp
        | false =>
          obtain ⟨s', h1, h2, h3⟩ := advance2_hasLongToken u x y z post hu hx hy hz
          simp only [Bool.false_eq_true, if_false, h1]
          apply ih
          · omega
          · rcases h3 with h3 | h3
            · exact Or.inl h3
            · exact Or.inr ⟨rfl, h3⟩
    · have hd0 : (deref (c :: rest)).toNat ≠ 0 := hc0
      have hsp : String.IsSpace (deref (c :: rest)) = false := hcs
      simp [GetPatternFromString.loop, hd0, hsp]

/-- C4, at the texts the claim names. `"ZZ"` parses to one wildcard and `"4G"`
to the byte `04`: no error is raised. For `"4"` and `"?"` the pointer moves
two characters on, beyond the terminator, and the next read leaves the text;
no error is raised there either. -/
theorem GetPatternFromString_accepts_malformed :
    GetPatternFromString ⟨0, false⟩ ['Z', 'Z'] = .ok [⟨0, true⟩] ∧
    GetPatternFromString ⟨0, false⟩ ['4', 'G'] = .ok [⟨4, false⟩] ∧
    GetPatternFromString ⟨0, false⟩ ['4'] = .error .outOfBounds ∧
    GetPatternFromString ⟨0, false⟩ ['?'] = .error .outOfBounds ∧
    ¬ WellFormedToken ['Z', 'Z'] ∧ ¬ WellFormedToken ['4', 'G'] := by
  refine ⟨by decide, by decide, by decide, by decide, ?_, ?_⟩
  · rintro (h | ⟨a, b, h, ha, _⟩)
    · exact absurd h (by decide)
    · have : a = 'Z' := by simpa using ((List.cons.inj h).1).symm
      rw [this] at ha
      exact absurd ha (by decide)
  · rintro (h | ⟨a, b, h, _, hb⟩)
    · exact absurd h (by decide)
    · have : b = 'G' := by simpa using ((List.cons.inj (List.cons.inj h).2).1).symm
      rw [this] at hb
      exact absurd hb (by decide)

/-- C4, amended. `SDR::GetPatternFromString` raises an error for the empty
text, and for every text (without the terminator inside) that holds a token of
more than two characters, that is three consecutive characters none of which is
whitespace, such as `"4D5A"`. The characters of a token of two are not checked:
when the first is not a hexadecimal digit, as in `"ZZ"`, the token is taken as
a wildcard. -/
theorem GetPatternFromString_fails (init : BytePattern.Entry) (text : List Char) (a b : Char) :
    (text = [] → GetPatternFromString init text = .error (.raised .emptyBytePattern)) ∧
    ((∀ c ∈ text, c.toNat ≠ 0) →
      (∃ pre x y z post, text = pre ++ x :: y :: z :: post ∧
        String.IsSpace x = false ∧ String.IsSpace y = false ∧ String.IsSpace z = false) →
      GetPatternFromString init text = .error (.raised .bytePairFormatting)) ∧
    (a.toNat ≠ 0 → b.toNat ≠ 0 → String.IsSpace a = false → isxdigit a = false →
      GetPatternFromString init [a, b] = .ok [{ init with Unknown := true }]) := by
  refine ⟨?_, ?_, ?_⟩
  · rintro rfl
    simp [GetPatternFromString, GetPatternFromString.loop, deref]
  · rintro hz ⟨pre, x, y, z, post, rfl, hx, hy, hz'⟩
    unfold GetPatternFromString
    rw [GetPatternFromString.loop_formatting init _ _ false [] (Nat.lt_succ_self _)
      (Or.inl ⟨pre, x, y, z, post, rfl, fun c hc => hz c (by simp [hc]),
        ⟨hz x (by simp), hx⟩, ⟨hz y (by simp), hy⟩, ⟨hz z (by simp), hz'⟩⟩)]
  · intro ha _ hsp hx
    have hd : deref [a, b] = a := rfl
    simp [GetPatternFromString, GetPatternFromString.loop, hd, ha, hsp, hx, advance2, deref]

theorem GetPatternFromString_fails_witness :
    GetPatternFromString ⟨0, false⟩ [] = .error (.raised .emptyBytePattern) ∧
    GetPatternFromString ⟨0, false⟩ ['4', 'D', '5', 'A'] = .error (.raised .bytePairFormatting) ∧
    GetPatternFromString ⟨0, false⟩ ['Z', 'Z'] = .ok [⟨0, true⟩] :=
  ⟨(GetPatternFromString_fails ⟨0, false⟩ [] 'Z' 'Z').1 rfl,
    (GetPatternFromString_fails ⟨0, false⟩ ['4', 'D', '5', 'A'] 'Z' 'Z').2.1 (by decide)
      ⟨[], '4', 'D', '5', ['A'], rfl, by decide, by decide, by decide⟩,
    (GetPatternFromString_fails ⟨0, false⟩ [] 'Z' 'Z').2.2 (by decide) (by decide) (by decide)
      (by decide)⟩

end SDR

namespace SDR

open rapidjson

/-! ## Variant selection -/

theorem sizeToInt_of_lt (n : Nat) (h : n < 2 ^ 31) : sizeToInt n = (n : Int) := by
  unfold sizeToInt
  have h1 : n % 2 ^ 32 = n := Nat.mod_eq_of_lt (by omega)
  rw [h1, if_pos h]

/-- C5. `SDR::WarnIfVariantOutOfBounds(variant, max)` raises an error if and
only if `variant < 0` or `variant >= max`, and returns normally otherwise. In
`SDR::GenericHookVariantInit` the check is made on the declared variant against
the number of candidates before a candidate is taken: with a variant out of
bounds the outcome is the error of the check, whatever `CreateHookBareShort`
would do, so no candidate is selected and no hook is created. -/
theorem WarnIfVariantOutOfBounds_iff (variant max : Int)
    (CreateHookBareShort : Nat → Nat → Value → Result Unit)
    (hooks : List GenericHookInitParam) (value : Value) :
    ((∃ e, WarnIfVariantOutOfBounds variant max = .error e) ↔ (variant < 0 ∨ variant ≥ max)) ∧
    (WarnIfVariantOutOfBounds variant max = .ok () ↔ ¬ (variant < 0 ∨ variant ≥ max)) ∧
    (hooks.length < 2 ^ 31 → GetVariantFromJson value = .ok variant →
      (variant < 0 ∨ variant ≥ hooks.length) →
      GenericHookVariantInit CreateHookBareShort hooks value
        = .error (.raised (.variantOutOfBounds variant hooks.length))) := by
  refine ⟨?_, ?_, ?_⟩
  · unfold WarnIfVariantOutOfBounds
    by_cases h : variant < 0 ∨ variant ≥ max
    · simp [h]
    · simp [h]
  · unfold WarnIfVariantOutOfBounds
    by_cases h : variant < 0 ∨ variant ≥ max
    · simp [h]
    · simp [h]
  · intro hlen hv hout
    unfold GenericHookVariantInit
    rw [hv]
    simp only [sizeToInt_of_lt _ hlen, WarnIfVariantOutOfBounds, hout, if_true]

theorem WarnIfVariantOutOfBounds_iff_witness :
    (∃ e, WarnIfVariantOutOfBounds 2 2 = .error e) ∧ WarnIfVariantOutOfBounds 1 2 = .ok () ∧
    GenericHookVariantInit (fun _ _ _ => .ok ()) [⟨10, 11⟩, ⟨20, 21⟩]
        (.obj [("Pattern", .str "90 90"), ("Variant", .int 2)])
      = .error (.raised (.variantOutOfBounds 2 2)) :=
  have h := WarnIfVariantOutOfBounds_iff 2 2 (fun _ _ _ => .ok ()) [⟨10, 11⟩, ⟨20, 21⟩]
    (.obj [("Pattern", .str "90 90"), ("Variant", .int 2)])
  ⟨h.1.mpr (by decide),
    (WarnIfVariantOutOfBounds_iff 1 2 (fun _ _ _ => .ok ()) [] .null).2.1.mpr (by decide),
    h.2.2 (by decide) rfl (by decide)⟩

/-- C6. For a descriptor without a `Variant` member `SDR::GetVariantFromJson`
returns 0, the bounds check passes for every number of candidates `N >= 1`, and
`SDR::GenericHookVariantInit` goes on with the first candidate. For a
descriptor whose `Variant` member is the integer `v` with `0 <= v < N`, it goes
on with the candidate of index `v`. -/
theorem GenericHookVariantInit_selects (CreateHookBareShort : Nat → Nat → Value → Result Unit)
    (hooks : List GenericHookInitParam) (members : List (String × Value))
    (hlen : hooks.length < 2 ^ 31) :
    ((Value.obj members).HasMember "Variant" = false →
      GetVariantFromJson (.obj members) = .ok 0 ∧
      (1 ≤ hooks.length →
        WarnIfVariantOutOfBounds 0 (sizeToInt hooks.length) = .ok () ∧
        ∃ target, hooks[0]? = some target ∧
          GenericHookVariantInit CreateHookBareShort hooks (.obj members)
            = CreateHookBareShort target.Hook target.Override (.obj members))) ∧
    (∀ v : Int, members.find? (fun m => m.1 == "Variant") = some ("Variant", .int v) →
      0 ≤ v → v < hooks.length →
      GetVariantFromJson (.obj members) = .ok v ∧
      ∃ target, hooks[v.toNat]? = some target ∧
        GenericHookVariantInit CreateHookBareShort hooks (.obj members)
          = CreateHookBareShort target.Hook target.Override (.obj members)) := by
  constructor
  · intro hno
    have hv : GetVariantFromJson (.obj members) = .ok 0 := by
      simp [GetVariantFromJson, JsonHasVariant, hno]
    refine ⟨hv, fun hN => ?_⟩
    have hin : ¬ ((0 : Int) < 0 ∨ (0 : Int) ≥ (hooks.length : Int)) := by omega
    have hw : WarnIfVariantOutOfBounds 0 (sizeToInt hooks.length) = .ok () := by
      simp only [sizeToInt_of_lt _ hlen, WarnIfVariantOutOfBounds, hin, if_false]
    refine ⟨hw, ?_⟩
    obtain ⟨target, ht⟩ : ∃ target, hooks[0]? = some target := by
      cases hooks with
      | nil => simp at hN
      | cons a _ => exact ⟨a, by simp⟩
    refine ⟨target, ht, ?_⟩
    unfold GenericHookVariantInit
    rw [hv]
    simp only [hw, Int.toNat_zero, ht]
  · intro v hfind h0 hN
    have hmem : (Value.obj members).HasMember "Variant" = true := by
      simp only [Value.HasMember, List.any_eq_true]
      exact ⟨("Variant", .int v), List.mem_of_find?_eq_some hfind, by simp⟩
    have hv : GetVariantFromJson (.obj members) = .ok v := by
      simp [GetVariantFromJson, JsonHasVariant, hmem, Json.GetInt, hfind]
    refine ⟨hv, ?_⟩
    have hin : ¬ (v < 0 ∨ v ≥ (hooks.length : Int)) := by omega
    have hw : WarnIfVariantOutOfBounds v (sizeToInt hooks.length) = .ok () := by
      simp only [sizeToInt_of_lt _ hlen, WarnIfVariantOutOfBounds, hin, if_false]
    have hlt : v.toNat < hooks.length := by omega
    refine ⟨hooks[v.toNat], List.getElem?_eq_getElem hlt, ?_⟩
    unfold GenericHookVariantInit
    rw [hv]
    simp only [hw, List.getElem?_eq_getElem hlt]

theorem GenericHookVariantInit_selects_witness :
    GenericHookVariantInit (fun hook _ _ => if hook = 10 then .ok () else .error .diverges)
        [⟨10, 11⟩, ⟨20, 21⟩] (.obj [("Pattern", .str "90 90")]) = .ok () ∧
    GenericHookVariantInit (fun hook _ _ => if hook = 20 then .ok () else .error .diverges)
        [⟨10, 11⟩, ⟨20, 21⟩] (.obj [("Pattern", .str "90 90"), ("Variant", .int 1)]) = .ok () := by
  have h0 := (GenericHookVariantInit_selects
    (fun hook _ _ => if hook = 10 then .ok () else .error .diverges)
    [⟨10, 11⟩, ⟨20, 21⟩] [("Pattern", .str "90 90")] (by decide)).1 rfl
  have h1 := (GenericHookVariantInit_selects
    (fun hook _ _ => if hook = 20 then .ok () else .error .diverges)
    [⟨10, 11⟩, ⟨20, 21⟩] [("Pattern", .str "90 90"), ("Variant", .int 1)] (by decide)).2 1 rfl
    (by decide) (by decide)
  obtain ⟨t0, ht0, e0⟩ := (h0.2 (by decide)).2
  obtain ⟨t1, ht1, e1⟩ := h1.2
  have ht0' : t0 = ⟨10, 11⟩ := by simpa using ht0.symm
  have ht1' : t1 = ⟨20, 21⟩ := by simpa using ht1.symm
  subst ht0' ht1'
  exact ⟨e0.trans rfl, e1.trans rfl⟩

end SDR

namespace Config

open rapidjson

/-! ## Profile inheritance -/

theorem findInherit_eq_none {props : List (String × Value)} :
    findInherit props = none ↔ ∀ p ∈ props, p.1 ≠ "Inherit" := by
  induction props with
  | nil => simp [findInherit]
  | cons p ps ih =>
    by_cases h : p.1 = "Inherit"
    · simp [findInherit, h]
    · simp [findInherit, h, ih]

theorem findInherit_append (before after : List (String × Value)) (value : Value)
    (hb : ∀ p ∈ before, p.1 ≠ "Inherit") :
    findInherit (before ++ ("Inherit", value) :: after) = some (before.length, value) := by
  induction before with
  | nil => simp [findInherit]
  | cons p ps ih =>
    have hp : p.1 ≠ "Inherit" := hb p (List.mem_cons_self _ _)
    have := ih (fun q hq => hb q (List.mem_cons_of_mem _ hq))
    simp [findInherit, hp, this]

theorem ResolveInherit_of_no_inherit (fuel : Nat) (self : Option Nat)
    (targetgame : ConfigObjectData) (source : List ConfigObjectData)
    (h : ¬ HasInherit targetgame) :
    ResolveInherit (fuel + 1) self targetgame source = .ok targetgame := by
  have hnone : findInherit targetgame.Properties = none :=
    findInherit_eq_none.mpr (fun p hp hk => h ⟨p, hp, hk⟩)
  simp only [ResolveInherit, hnone]

theorem no_inherit_of_ResolveInherit :
    ∀ (fuel : Nat) (self : Option Nat) (targetgame : ConfigObjectData)
      (source : List ConfigObjectData) (resolved : ConfigObjectData),
      ResolveInherit fuel self targetgame source = .ok resolved → ¬ HasInherit resolved := by
  intro fuel
  induction fuel with
  | zero =>
    intro self targetgame source resolved h
    simp [ResolveInherit] at h
  | succ fuel ih =>
    intro self targetgame source resolved h
    unfold ResolveInherit at h
    split at h
    · rename_i hnone
      have hr : targetgame = resolved := by simpa using h
      subst hr
      rintro ⟨p, hp, hk⟩
      exact findInherit_eq_none.mp hnone p hp hk
    · split at h
      · simp at h
      · dsimp only at h
        split at h
        · exact ih _ _ _ _ h
        · simp at h

theorem mem_addMissing {dest sourceprops : List (String × Value)} {p : String × Value}
    (h : p ∈ addMissing dest sourceprops) : p ∈ dest ∨ p ∈ sourceprops := by
  induction sourceprops generalizing dest with
  | nil => exact Or.inl (by simpa [addMissing] using h)
  | cons q qs ih =>
    simp only [addMissing, List.foldl_cons] at h
    have h' := ih h
    rcases h' with h' | h'
    · split at h'
      · rcases List.mem_append.mp h' with h' | h'
        · exact Or.inl h'
        · exact Or.inr (by simp at h'; simp [h'])
      · exact Or.inl h'
    · exact Or.inr (List.mem_cons_of_mem _ h')

/-- With distinct keys in the source, the properties added are those of the
source whose key the target did not have, in the order of the source. -/
theorem addMissing_eq_filter (dest sourceprops : List (String × Value))
    (hnd : (sourceprops.map Prod.fst).Nodup) :
    addMissing dest sourceprops
      = dest ++ sourceprops.filter (fun p => !dest.any (fun d => p.1 == d.1)) := by
  induction sourceprops generalizing dest with
  | nil => simp [addMissing]
  | cons q qs ih =>
    have hq : ∀ r ∈ qs, r.1 ≠ q.1 := by
      intro r hr heq
      have h1 := (List.nodup_cons.mp hnd).1
      exact h1 (List.mem_map.mpr ⟨r, hr, heq⟩)
    have hnd' : (qs.map Prod.fst).Nodup := (List.nodup_cons.mp hnd).2
    simp only [addMissing, List.foldl_cons] at ih ⊢
    by_cases hany : dest.any (fun d => q.1 == d.1) = true
    · simp only [hany, Bool.not_true, Bool.false_eq_true, if_false]
      rw [ih dest hnd', List.filter_cons_of_neg (by simp [hany])]
    · have hany' : dest.any (fun d => q.1 == d.1) = false := Bool.eq_false_iff.mpr hany
      simp only [hany', Bool.not_false, if_true]
      rw [ih (dest ++ [q]) hnd', List.filter_cons_of_pos (by simp [hany']), List.append_assoc]
      congr 1
      simp only [List.singleton_append, List.cons.injEq, true_and]
      apply List.filter_congr
      intro r hr
      have := hq r hr
      simp [List.any_append, this]

theorem eraseIdx_append_cons {α : Type} (before after : List α) (x : α) :
    (before ++ x :: after).eraseIdx before.length = before ++ after := by
  induction before with
  | nil => rfl
  | cons b bs ih => simp [List.eraseIdx, ih]

/-- With the parent as the first profile of the collection, a child whose one
`Inherit` key names it resolves to its own properties other than `Inherit`
followed by the properties of the parent that `addMissing` adds. -/
theorem ResolveInherit_parent_first (fuel : Nat) (self : Option Nat)
    (child parent : ConfigObjectData) (rest : List ConfigObjectData)
    (before after : List (String × Value))
    (hself : self ≠ some 0)
    (hprops : child.Properties = before ++ ("Inherit", Value.str parent.ObjectName) :: after)
    (hbefore : ∀ p ∈ before, p.1 ≠ "Inherit") (hafter : ∀ p ∈ after, p.1 ≠ "Inherit")
    (hparent : ¬ HasInherit parent) :
    ResolveInherit (fuel + 2) self child (parent :: rest)
      = .ok { child with Properties := addMissing (before ++ after) parent.Properties } := by
  have hfind := findInherit_append before after (Value.str parent.ObjectName) hbefore
  rw [← hprops] at hfind
  have hview : ∀ erased : ConfigObjectData, ∃ rest',
      sourceView self erased (parent :: rest) = parent :: rest' := by
    intro erased
    match self, hself with
    | none, _ => exact ⟨rest, rfl⟩
    | some 0, h => exact absurd rfl h
    | some (k + 1), _ => exact ⟨rest.set k erased, rfl⟩
  have herase : child.Properties.eraseIdx before.length = before ++ after := by
    rw [hprops, eraseIdx_append_cons]
  rw [ResolveInherit]
  simp only [hfind, Value.IsString, Value.GetString, Bool.true_eq_false, if_false]
  obtain ⟨rest', hv⟩ := hview
    { child with Properties := child.Properties.eraseIdx before.length }
  rw [hv]
  simp only [ResolveInherit.fromSource, if_true, herase]
  apply ResolveInherit_of_no_inherit
  rintro ⟨p, hp, hk⟩
  rcases mem_addMissing hp with h | h
  · rcases List.mem_append.mp h with h | h
    · exact hbefore p h hk
    · exact hafter p h hk
  · exact hparent ⟨p, h, hk⟩

/-- C7, the code at a parent that is not the first profile of the collection.
The child `{A:1, Inherit:"parent"}` stands before its parent `{A:2, B:3}`: the
loop over the collection meets the child first, its name is not `"parent"`, and
the inherit-target-not-found error is raised, whatever the depth of recursion
allowed. With the parent first the same child resolves to `{A:1, B:3}`. -/
theorem ResolveInherit_parent_not_first :
    (∀ fuel, ResolveInherit (fuel + 1) (some 0)
        ⟨"child", [("A", .int 1), ("Inherit", .str "parent")]⟩
        [⟨"child", [("A", .int 1), ("Inherit", .str "parent")]⟩,
          ⟨"parent", [("A", .int 2), ("B", .int 3)]⟩]
      = .error (.raised (.inheritTargetNotFound "child" "parent"))) ∧
    (∀ fuel, ResolveInherit (fuel + 2) (some 1)
        ⟨"child", [("A", .int 1), ("Inherit", .str "parent")]⟩
        [⟨"parent", [("A", .int 2), ("B", .int 3)]⟩,
          ⟨"child", [("A", .int 1), ("Inherit", .str "parent")]⟩]
      = .ok ⟨"child", [("A", .int 1), ("B", .int 3)]⟩) :=
  ⟨fun _ => rfl, fun _ => rfl⟩

/-- C8. Resolution is idempotent: for a profile with no `Inherit` key and any
collection, `Config::ResolveInherit` returns without error and leaves the
profile, its properties in keys, values and order, as it is; so a profile that
a call of `ResolveInherit` has returned is left as it is by a second call. -/
theorem ResolveInherit_idempotent (fuel : Nat) (self : Option Nat)
    (targetgame : ConfigObjectData) (source : List ConfigObjectData) :
    (¬ HasInherit targetgame →
      ResolveInherit (fuel + 1) self targetgame source = .ok targetgame) ∧
    (∀ (fuel0 : Nat) (self0 : Option Nat) (game0 : ConfigObjectData)
        (source0 : List ConfigObjectData),
      ResolveInherit fuel0 self0 game0 source0 = .ok targetgame →
      ResolveInherit (fuel + 1) self targetgame source = .ok targetgame) :=
  ⟨ResolveInherit_of_no_inherit fuel self targetgame source,
    fun fuel0 self0 game0 source0 h =>
      ResolveInherit_of_no_inherit fuel self targetgame source
        (no_inherit_of_ResolveInherit fuel0 self0 game0 source0 targetgame h)⟩

theorem ResolveInherit_idempotent_witness :
    ResolveInherit 1 (some 1) ⟨"child", [("A", .int 1), ("B", .int 3)]⟩
        [⟨"parent", [("A", .int 2), ("B", .int 3)]⟩, ⟨"child", [("A", .int 1), ("B", .int 3)]⟩]
      = .ok ⟨"child", [("A", .int 1), ("B", .int 3)]⟩ :=
  (ResolveInherit_idempotent 0 (some 1) ⟨"child", [("A", .int 1), ("B", .int 3)]⟩
    [⟨"parent", [("A", .int 2), ("B", .int 3)]⟩, ⟨"child", [("A", .int 1), ("B", .int 3)]⟩]).2
    2 (some 1) ⟨"child", [("A", .int 1), ("Inherit", .str "parent")]⟩
    [⟨"parent", [("A", .int 2), ("B", .int 3)]⟩,
      ⟨"child", [("A", .int 1), ("Inherit", .str "parent")]⟩] rfl

/-- C9. When the target profile is in the collection and its `Inherit` key
holds a string that names no profile of the collection,
`Config::ResolveInherit` raises the inherit-target-not-found error. (The
`Inherit` key is the first of that name, the one the function finds.) -/
theorem ResolveInherit_missing_parent (fuel k : Nat) (targetgame : ConfigObjectData)
    (source : List ConfigObjectData) (before after : List (String × Value)) (src : String)
    (hk : source[k]? = some targetgame)
    (hprops : targetgame.Properties = before ++ ("Inherit", Value.str src) :: after)
    (hbefore : ∀ p ∈ before, p.1 ≠ "Inherit")
    (hno : ∀ game ∈ source, game.ObjectName ≠ src) :
    ResolveInherit (fuel + 1) (some k) targetgame source
      = .error (.raised (.inheritTargetNotFound targetgame.ObjectName src)) := by
  have hfind := findInherit_append before after (Value.str src) hbefore
  rw [← hprops] at hfind
  have hname : targetgame.ObjectName ≠ src := hno targetgame (List.getElem?_mem hk)
  simp only [ResolveInherit, hfind, sourceView, Value.IsString, Value.GetString,
    Bool.true_eq_false, if_false]
  cases source with
  | nil => simp at hk
  | cons g rest =>
    cases k with
    | zero => simp [List.set, ResolveInherit.fromSource, hname]
    | succ k =>
      have hg : g.ObjectName ≠ src := hno g (List.mem_cons_self _ _)
      simp [List.set, ResolveInherit.fromSource, hg]

theorem ResolveInherit_missing_parent_witness :
    ResolveInherit 3 (some 1) ⟨"child", [("A", .int 1), ("Inherit", .str "nobody")]⟩
        [⟨"parent", [("A", .int 2), ("B", .int 3)]⟩,
          ⟨"child", [("A", .int 1), ("Inherit", .str "nobody")]⟩]
      = .error (.raised (.inheritTargetNotFound "child" "nobody")) :=
  ResolveInherit_missing_parent 2 1 ⟨"child", [("A", .int 1), ("Inherit", .str "nobody")]⟩
    [⟨"parent", [("A", .int 2), ("B", .int 3)]⟩,
      ⟨"child", [("A", .int 1), ("Inherit", .str "nobody")]⟩]
    [("A", .int 1)] [] "nobody" rfl rfl (by decide) (by decide)

/-- C10. Whenever `Config::ResolveInherit` returns normally, for any target
profile and collection and any depth of inheritance, the profile it leaves has
no property whose key is `Inherit`. -/
theorem ResolveInherit_no_inherit (fuel : Nat) (self : Option Nat)
    (targetgame : ConfigObjectData) (source : List ConfigObjectData)
    (resolved : ConfigObjectData)
    (h : ResolveInherit fuel self targetgame source = .ok resolved) :
    ∀ p ∈ resolved.Properties, p.1 ≠ "Inherit" :=
  fun p hp hk => no_inherit_of_ResolveInherit fuel self targetgame source resolved h ⟨p, hp, hk⟩

theorem ResolveInherit_no_inherit_witness :
    ResolveInherit 3 (some 1)
        ⟨"child", [("Inherit", .str "parent"), ("A", .int 1), ("Inherit", .str "parent")]⟩
        [⟨"parent", [("A", .int 2), ("B", .int 3)]⟩,
          ⟨"child", [("Inherit", .str "parent"), ("A", .int 1), ("Inherit", .str "parent")]⟩]
      = .ok ⟨"child", [("A", .int 1), ("B", .int 3)]⟩ ∧
    ∀ p ∈ [("A", Value.int 1), ("B", Value.int 3)], p.1 ≠ "Inherit" :=
  ⟨rfl, ResolveInherit_no_inherit 3 (some 1)
    ⟨"child", [("Inherit", .str "parent"), ("A", .int 1), ("Inherit", .str "parent")]⟩
    [⟨"parent", [("A", .int 2), ("B", .int 3)]⟩,
      ⟨"child", [("Inherit", .str "parent"), ("A", .int 1), ("Inherit", .str "parent")]⟩]
    ⟨"child", [("A", .int 1), ("B", .int 3)]⟩ rfl⟩

end Config

namespace Config

open rapidjson

/-! ## Profile matching -/

theorem EndsWith_iff (str ending : String) :
    String.EndsWith str ending = true ↔ ending.data <:+ str.data := by
  simp [String.EndsWith]

theorem populate_toDocument (profiles dest : List ConfigObjectData) :
    PopulateAndFindObject.populate
        (profiles.map (fun game => (game.ObjectName, Value.obj game.Properties))) dest
      = .ok (dest ++ profiles) := by
  induction profiles generalizing dest with
  | nil => simp [PopulateAndFindObject.populate]
  | cons game rest ih =>
    simp only [List.map_cons, PopulateAndFindObject.populate, MemberLoop.members]
    rw [ih]
    simp

theorem find_eq_none (gamename : String) (dest : List ConfigObjectData) (k : Nat) :
    PopulateAndFindObject.find gamename dest k = none ↔
      ∀ other ∈ dest, String.EndsWith gamename other.ObjectName = false := by
  induction dest generalizing k with
  | nil => simp [PopulateAndFindObject.find]
  | cons obj rest ih =>
    by_cases h : String.EndsWith gamename obj.ObjectName = true
    · simp [PopulateAndFindObject.find, h]
    · have h' : String.EndsWith gamename obj.ObjectName = false := by simpa using h
      simp [PopulateAndFindObject.find, h', ih]

theorem find_eq_some (gamename : String) (dest : List ConfigObjectData) :
    ∀ (k j : Nat) (object : ConfigObjectData),
      PopulateAndFindObject.find gamename dest k = some (j, object) →
      ∃ i, j = k + i ∧ dest[i]? = some object ∧
        String.EndsWith gamename object.ObjectName = true ∧
        ∀ (i0 : Nat) (other : ConfigObjectData), i0 < i → dest[i0]? = some other →
          String.EndsWith gamename other.ObjectName = false := by
  induction dest with
  | nil => intro k j object h; simp [PopulateAndFindObject.find] at h
  | cons obj rest ih =>
    intro k j object h
    by_cases hm : String.EndsWith gamename obj.ObjectName = true
    · simp only [PopulateAndFindObject.find, hm, if_true, Option.some.injEq, Prod.mk.injEq] at h
      obtain ⟨rfl, rfl⟩ := h
      exact ⟨0, rfl, by simp, hm, fun i0 other hi0 _ => absurd hi0 (Nat.not_lt_zero _)⟩
    · have hm' : String.EndsWith gamename obj.ObjectName = false := by simpa using hm
      simp only [PopulateAndFindObject.find, hm', Bool.false_eq_true, if_false] at h
      obtain ⟨i, hj, hi, hend, hfirst⟩ := ih (k + 1) j object h
      refine ⟨i + 1, by omega, by simpa using hi, hend, ?_⟩
      intro i0 other hi0 hget
      cases i0 with
      | zero =>
        have : obj = other := by simpa using hget
        rw [← this]
        exact hm'
      | succ i0 => exact hfirst i0 other (by omega) (by simpa using hget)

/-- C11. For every profile collection and host path,
`Config::PopulateAndFindObject` returns the first profile in document order
whose name ends the path (`SDR::String::EndsWith(path, name)`, the name is a
suffix of the path), and returns null when no name ends the path; then
`Config::SetupGame` raises the profile-not-found error and calls no handler. -/
theorem PopulateAndFindObject_first_match (gamename : String)
    (profiles : List ConfigObjectData) (fuel : Nat) (ModuleHandlers : List ModuleHandlerData) :
    ∃ found, PopulateAndFindObject gamename (toDocument profiles) [] = .ok (profiles, found) ∧
      (∀ (k : Nat) (object : ConfigObjectData), found = some (k, object) →
        profiles[k]? = some object ∧ String.EndsWith gamename object.ObjectName = true ∧
        object.ObjectName.data <:+ gamename.data ∧
        ∀ (j : Nat) (other : ConfigObjectData), j < k → profiles[j]? = some other →
          String.EndsWith gamename other.ObjectName = false) ∧
      (found = none ↔ ∀ other ∈ profiles, ¬ other.ObjectName.data <:+ gamename.data) ∧
      (found = none →
        (SetupGame fuel (some (toDocument profiles)) gamename ModuleHandlers []).result
            = .error (.raised .currentGameNotFound) ∧
        (SetupGame fuel (some (toDocument profiles)) gamename ModuleHandlers []).log = [] ∧
        (SetupGame fuel (some (toDocument profiles)) gamename ModuleHandlers []).ModuleHandlers
            = ModuleHandlers) := by
  have hpop : PopulateAndFindObject gamename (toDocument profiles) []
      = .ok (profiles, PopulateAndFindObject.find gamename profiles 0) := by
    simp [PopulateAndFindObject, toDocument, MemberLoop.members, populate_toDocument]
  refine ⟨PopulateAndFindObject.find gamename profiles 0, hpop, ?_, ?_, ?_⟩
  · intro k object hfound
    obtain ⟨i, hk, hi, hend, hfirst⟩ := find_eq_some gamename profiles 0 k object hfound
    have hki : k = i := by omega
    subst hki
    exact ⟨hi, hend, (EndsWith_iff _ _).mp hend, hfirst⟩
  · rw [find_eq_none]
    constructor
    · intro h other ho hs
      have := h other ho
      rw [(EndsWith_iff _ _).mpr hs] at this
      exact absurd this (by simp)
    · intro h other ho
      have := h other ho
      rw [← EndsWith_iff] at this
      simpa using this
  · intro hnone
    simp [SetupGame, hpop, hnone]

theorem PopulateAndFindObject_first_match_witness :
    PopulateAndFindObject "C:/games/game2" (toDocument [⟨"game1", []⟩, ⟨"game2", []⟩, ⟨"e2", []⟩]) []
      = .ok ([⟨"game1", []⟩, ⟨"game2", []⟩, ⟨"e2", []⟩], some (1, ⟨"game2", []⟩)) ∧
    (SetupGame 1 (some (toDocument [⟨"game1", []⟩])) "C:/games/game2"
      [⟨"ModX", fun _ => .ok ()⟩] []).result = .error (.raised .currentGameNotFound) := by
  obtain ⟨found, h1, _, _, _⟩ := PopulateAndFindObject_first_match "C:/games/game2"
    [⟨"game1", []⟩, ⟨"game2", []⟩, ⟨"e2", []⟩] 1 []
  obtain ⟨found0, h0, _, _, hsetup⟩ := PopulateAndFindObject_first_match "C:/games/game2"
    [⟨"game1", []⟩] 1 [⟨"ModX", fun _ => .ok ()⟩]
  have hn : found0 = none := by
    have : PopulateAndFindObject "C:/games/game2" (toDocument [⟨"game1", []⟩]) []
        = .ok ([⟨"game1", []⟩], none) := rfl
    rw [this] at h0
    simpa using (Prod.mk.inj (Except.ok.inj h0)).2.symm
  exact ⟨rfl, (hsetup hn).1⟩

/-- C12, at the path of the claim. With the profiles `"game1"` and `"game2"`
and the host path `"C:/games/game2/bin/host.exe"`, no profile name ends the
path: `Config::PopulateAndFindObject` returns null, not the profile `"game2"`. -/
theorem PopulateAndFindObject_host_exe_path :
    PopulateAndFindObject "C:/games/game2/bin/host.exe"
        (toDocument [⟨"game1", []⟩, ⟨"game2", []⟩]) []
      = .ok ([⟨"game1", []⟩, ⟨"game2", []⟩], none) ∧
    String.EndsWith "C:/games/game2/bin/host.exe" "game2" = false :=
  ⟨rfl, rfl⟩

theorem suffix_of_append_of_length_le {α : Type} {l p t : List α} (h : l <:+ p ++ t)
    (hlen : l.length ≤ t.length) : l <:+ t :=
  List.suffix_of_suffix_length_le h (List.suffix_append p t) hlen

/-- C12, amended. With the profiles `"game1"` and `"game2"`, whatever their
properties, `Config::PopulateAndFindObject` selects `"game2"` for every host
path that ends in `"game2"`, and selects no profile for a host path that ends
in `"/game2/bin/host.exe"`. -/
theorem PopulateAndFindObject_game2 (front : String) (props1 props2 : List (String × Value)) :
    PopulateAndFindObject (front ++ "game2")
        (toDocument [⟨"game1", props1⟩, ⟨"game2", props2⟩]) []
      = .ok ([⟨"game1", props1⟩, ⟨"game2", props2⟩], some (1, ⟨"game2", props2⟩)) ∧
    PopulateAndFindObject (front ++ "/game2/bin/host.exe")
        (toDocument [⟨"game1", props1⟩, ⟨"game2", props2⟩]) []
      = .ok ([⟨"game1", props1⟩, ⟨"game2", props2⟩], none) := by
  have h1 : String.EndsWith (front ++ "game2") "game1" = false := by
    rw [Bool.eq_false_iff]
    intro h
    rw [EndsWith_iff, String.data_append] at h
    have := suffix_of_append_of_length_le h (by decide)
    exact absurd this (by decide)
  have h2 : String.EndsWith (front ++ "game2") "game2" = true := by
    rw [EndsWith_iff, String.data_append]
    exact List.suffix_append _ _
  have h3 : ∀ name : String, name.data.length ≤ 19 →
      ¬ name.data <:+ "/game2/bin/host.exe".data →
      String.EndsWith (front ++ "/game2/bin/host.exe") name = false := by
    intro name hlen hno
    rw [Bool.eq_false_iff]
    intro h
    rw [EndsWith_iff, String.data_append] at h
    exact hno (suffix_of_append_of_length_le h hlen)
  have h4 := h3 "game1" (by decide) (by decide)
  have h5 := h3 "game2" (by decide) (by decide)
  constructor
  · simp [PopulateAndFindObject, toDocument, MemberLoop.members,
      PopulateAndFindObject.populate, PopulateAndFindObject.find, h1, h2]
  · simp [PopulateAndFindObject, toDocument, MemberLoop.members,
      PopulateAndFindObject.populate, PopulateAndFindObject.find, h4, h5]

theorem PopulateAndFindObject_game2_witness :
    PopulateAndFindObject "C:/games/game2"
        (toDocument [⟨"game1", [("A", .int 1)]⟩, ⟨"game2", [("A", .int 2)]⟩]) []
      = .ok ([⟨"game1", [("A", .int 1)]⟩, ⟨"game2", [("A", .int 2)]⟩],
          some (1, ⟨"game2", [("A", .int 2)]⟩)) :=
  (PopulateAndFindObject_game2 "C:/games/" [("A", .int 1)] [("A", .int 2)]).1

/-! ## Activation of the modules -/

theorem handlerLoop_of_find_none (prop : String × Value) (ModuleHandlers : List ModuleHandlerData)
    (h : ModuleHandlers.find? (fun handler => prop.1 == handler.Name) = none) :
    CallGameHandlers.handlerLoop prop ModuleHandlers = ([], .ok false) := by
  induction ModuleHandlers with
  | nil => rfl
  | cons handler rest ih =>
    by_cases hn : prop.1 = handler.Name
    · rw [List.find?_cons_of_pos _ (by simpa using hn)] at h
      exact absurd h (by simp)
    · have hrest : rest.find? (fun handler => prop.1 == handler.Name) = none := by
        rw [List.find?_cons_of_neg _ (by simpa using hn)] at h
        exact h
      simp only [CallGameHandlers.handlerLoop, hn, if_false]
      exact ih hrest

theorem handlerLoop_of_find_some (prop : String × Value) (ModuleHandlers : List ModuleHandlerData)
    (handler : ModuleHandlerData)
    (h : ModuleHandlers.find? (fun handler => prop.1 == handler.Name) = some handler) :
    handler.Name = prop.1 ∧
    CallGameHandlers.handlerLoop prop ModuleHandlers
      = ([.handlerCalled prop.1 prop.2],
          match handler.Function prop.2 with
          | .ok () => .ok true
          | .error e => .error (rethrown prop.1 e)) := by
  induction ModuleHandlers with
  | nil => simp at h
  | cons first rest ih =>
    by_cases hn : prop.1 = first.Name
    · have hf : first = handler := by
        rw [List.find?_cons_of_pos _ (by simpa using hn)] at h
        exact Option.some.inj h
      subst hf
      refine ⟨hn.symm, ?_⟩
      simp only [CallGameHandlers.handlerLoop, hn, if_true]
      cases hr : first.Function prop.2 with
      | ok u => cases u; rfl
      | error e => cases e <;> rfl
    · have hrest : rest.find? (fun handler => prop.1 == handler.Name) = some handler := by
        rw [List.find?_cons_of_neg _ (by simpa using hn)] at h
        exact h
      simp only [CallGameHandlers.handlerLoop, hn, if_false]
      exact ih hrest

theorem any_eq_find_isSome (prop : String × Value) (ModuleHandlers : List ModuleHandlerData) :
    ModuleHandlers.any (fun handler => prop.1 == handler.Name)
      = (ModuleHandlers.find? (fun handler => prop.1 == handler.Name)).isSome := by
  induction ModuleHandlers with
  | nil => rfl
  | cons first rest ih =>
    by_cases hn : prop.1 = first.Name
    · rw [List.find?_cons_of_pos _ (by simpa using hn)]
      simp [hn]
    · rw [List.find?_cons_of_neg _ (by simpa using hn)]
      simp [hn, ih]

/-- The loop over the properties, when the handlers called for them return:
the events are those expected, and the loop ends normally. -/
theorem propLoop_of_ok (ModuleHandlers : List ModuleHandlerData)
    (props : List (String × Value))
    (hok : ∀ prop ∈ props, ∀ handler,
      ModuleHandlers.find? (fun handler => prop.1 == handler.Name) = some handler →
      handler.Function prop.2 = .ok ()) :
    CallGameHandlers.propLoop ModuleHandlers props
      = (expectedLog ModuleHandlers props, .ok ()) := by
  induction props with
  | nil => rfl
  | cons prop rest ih =>
    have ih' := ih (fun p hp => hok p (List.mem_cons_of_mem _ hp))
    simp only [CallGameHandlers.propLoop, expectedLog, expectedEvents, IsLauncherKey]
    by_cases h1 : prop.1 = "DisplayName"
    · simp [h1, ih']
    · by_cases h2 : prop.1 = "ExecutableName"
      · simp [h2, ih']
      · simp only [h1, h2, if_false, or_self, any_eq_find_isSome]
        cases hf : ModuleHandlers.find? (fun handler => prop.1 == handler.Name) with
        | none =>
          rw [handlerLoop_of_find_none prop ModuleHandlers hf, ih']
          simp [PrintModuleState]
        | some handler =>
          obtain ⟨_, hl⟩ := handlerLoop_of_find_some prop ModuleHandlers handler hf
          rw [hl, hok prop (List.mem_cons_self _ _) handler hf, ih']
          simp [PrintModuleState]

/-- The loop over the properties, when the handler called for `prop` fails
and those called before have returned: the events end with the call of that
handler, and the failure leaves the loop. -/
theorem propLoop_of_error (ModuleHandlers : List ModuleHandlerData)
    (before after : List (String × Value)) (prop : String × Value)
    (handler : ModuleHandlerData) (e : Failure)
    (hkey : ¬ IsLauncherKey prop.1)
    (hfind : ModuleHandlers.find? (fun handler => prop.1 == handler.Name) = some handler)
    (hraise : handler.Function prop.2 = .error e)
    (hbefore : ∀ p ∈ before, ∀ earlier,
      ModuleHandlers.find? (fun handler => p.1 == handler.Name) = some earlier →
      earlier.Function p.2 = .ok ()) :
    CallGameHandlers.propLoop ModuleHandlers (before ++ prop :: after)
      = (expectedLog ModuleHandlers before ++ [.handlerCalled prop.1 prop.2],
          .error (rethrown prop.1 e)) := by
  induction before with
  | nil =>
    have h1 : prop.1 ≠ "DisplayName" := fun h => hkey (Or.inl h)
    have h2 : prop.1 ≠ "ExecutableName" := fun h => hkey (Or.inr h)
    obtain ⟨_, hl⟩ := handlerLoop_of_find_some prop ModuleHandlers handler hfind
    simp only [List.nil_append, CallGameHandlers.propLoop, h1, h2, if_false, hl, hraise,
      expectedLog]
  | cons p rest ih =>
    have ih' := ih (fun q hq => hbefore q (List.mem_cons_of_mem _ hq))
    rw [List.cons_append]
    simp only [CallGameHandlers.propLoop, expectedLog, expectedEvents, IsLauncherKey]
    by_cases h1 : p.1 = "DisplayName"
    · simp [h1, ih']
    · by_cases h2 : p.1 = "ExecutableName"
      · simp [h2, ih']
      · simp only [h1, h2, if_false, or_self, any_eq_find_isSome]
        cases hf : ModuleHandlers.find? (fun handler => p.1 == handler.Name) with
        | none =>
          rw [handlerLoop_of_find_none p ModuleHandlers hf, ih']
          simp [PrintModuleState]
        | some earlier =>
          obtain ⟨_, hl⟩ := handlerLoop_of_find_some p ModuleHandlers earlier hf
          rw [hl, hbefore p (List.mem_cons_self _ _) earlier hf, ih']
          simp [PrintModuleState]

/-- C13. For a resolved profile and a handler registry whose handlers do not
raise, `Config::CallGameHandlers` goes through the properties in profile order:
it passes over `DisplayName` and `ExecutableName`, calls the handler whose name
is the key of the property once with the raw value of the property, and only
reports a warning for a property that no handler is named after. It returns
normally and leaves the registry empty. (The handler called is the first of
that name, which is the only one when the names are distinct.) -/
theorem CallGameHandlers_invokes (ModuleHandlers : List ModuleHandlerData)
    (GameConfigs : List ConfigObjectData) (game : ConfigObjectData)
    (hnodup : (ModuleHandlers.map (fun handler => handler.Name)).Nodup)
    (hok : ∀ handler ∈ ModuleHandlers, ∀ value, handler.Function value = .ok ()) :
    (CallGameHandlers ModuleHandlers GameConfigs game).result = .ok () ∧
    (CallGameHandlers ModuleHandlers GameConfigs game).ModuleHandlers = [] ∧
    (CallGameHandlers ModuleHandlers GameConfigs game).log
      = .messageCreating ModuleHandlers.length :: expectedLog ModuleHandlers game.Properties ∧
    ∀ prop ∈ game.Properties, ∀ handler ∈ ModuleHandlers, handler.Name = prop.1 →
      ModuleHandlers.find? (fun candidate => prop.1 == candidate.Name) = some handler := by
  have hloop := propLoop_of_ok ModuleHandlers game.Properties
    (fun prop _ handler hf => hok handler (List.mem_of_find?_eq_some hf) prop.2)
  refine ⟨?_, ?_, ?_, ?_⟩
  · simp [CallGameHandlers, hloop]
  · simp [CallGameHandlers, hloop]
  · simp [CallGameHandlers, hloop]
  · intro prop _ handler hmem hname
    clear hloop hok
    induction ModuleHandlers with
    | nil => simp at hmem
    | cons first rest ih =>
      have hnd := List.nodup_cons.mp hnodup
      rcases List.mem_cons.mp hmem with rfl | hrest
      · rw [List.find?_cons_of_pos _ (by simpa using hname.symm)]
      · have hne : prop.1 ≠ first.Name := by
          intro heq
          apply hnd.1
          exact List.mem_map.mpr ⟨handler, hrest, by rw [hname, heq]⟩
        rw [List.find?_cons_of_neg _ (by simpa using hne)]
        exact ih hnd.2 hrest

theorem CallGameHandlers_invokes_witness :
    (CallGameHandlers [⟨"ModX", fun _ => .ok ()⟩] []
        ⟨"game", [("DisplayName", .str "Game"),
          ("ModX", .obj [("Pattern", .str "90 90")]), ("ModY", .obj [])]⟩).log
      = [.messageCreating 1, .handlerCalled "ModX" (.obj [("Pattern", .str "90 90")]),
          .messageEnabled "ModX", .warningNoHandler "ModY"] ∧
    (CallGameHandlers [⟨"ModX", fun _ => .ok ()⟩] []
        ⟨"game", [("DisplayName", .str "Game"),
          ("ModX", .obj [("Pattern", .str "90 90")]), ("ModY", .obj [])]⟩).result = .ok () :=
  have h := CallGameHandlers_invokes [⟨"ModX", fun _ => .ok ()⟩] []
    ⟨"game", [("DisplayName", .str "Game"),
      ("ModX", .obj [("Pattern", .str "90 90")]), ("ModY", .obj [])]⟩
    (by decide) (by intro handler hmem value; simp at hmem; subst hmem; rfl)
  ⟨h.2.2.1.trans rfl, h.1⟩

/-- C14. There is no partial success: when the handler called for a property
of the profile fails (those called for the properties before it having
returned), `Config::CallGameHandlers` fails as well: the failure leaves the
function, as the error of the `catch` block when it is an exception of
`SDR::Error`. The call of that handler is the last event: no handler is called
for a later property, and the registry is not cleared. -/
theorem CallGameHandlers_handler_raises (ModuleHandlers : List ModuleHandlerData)
    (GameConfigs : List ConfigObjectData) (game : ConfigObjectData)
    (before after : List (String × Value)) (prop : String × Value)
    (handler : ModuleHandlerData) (e : Failure)
    (hprops : game.Properties = before ++ prop :: after)
    (hkey : ¬ IsLauncherKey prop.1)
    (hfind : ModuleHandlers.find? (fun handler => prop.1 == handler.Name) = some handler)
    (hraise : handler.Function prop.2 = .error e)
    (hbefore : ∀ p ∈ before, ∀ earlier,
      ModuleHandlers.find? (fun handler => p.1 == handler.Name) = some earlier →
      earlier.Function p.2 = .ok ()) :
    (CallGameHandlers ModuleHandlers GameConfigs game).result = .error (rethrown prop.1 e) ∧
    (CallGameHandlers ModuleHandlers GameConfigs game).log
      = .messageCreating ModuleHandlers.length ::
          (expectedLog ModuleHandlers before ++ [.handlerCalled prop.1 prop.2]) ∧
    (CallGameHandlers ModuleHandlers GameConfigs game).ModuleHandlers = ModuleHandlers := by
  have hloop := propLoop_of_error ModuleHandlers before after prop handler e hkey hfind hraise
    hbefore
  rw [← hprops] at hloop
  simp [CallGameHandlers, hloop]

theorem CallGameHandlers_handler_raises_witness :
    (CallGameHandlers
        [⟨"ModX", fun _ => .ok ()⟩, ⟨"ModY", fun _ => .error (.raised .nullPointer)⟩,
          ⟨"ModZ", fun _ => .ok ()⟩] []
        ⟨"game", [("ModX", .null), ("ModY", .null), ("ModZ", .null)]⟩).result
      = .error (.raised (.couldNotEnableModule "ModY")) ∧
    (CallGameHandlers
        [⟨"ModX", fun _ => .ok ()⟩, ⟨"ModY", fun _ => .error (.raised .nullPointer)⟩,
          ⟨"ModZ", fun _ => .ok ()⟩] []
        ⟨"game", [("ModX", .null), ("ModY", .null), ("ModZ", .null)]⟩).log
      = [.messageCreating 3, .handlerCalled "ModX" .null, .messageEnabled "ModX",
          .handlerCalled "ModY" .null] :=
  have h := CallGameHandlers_handler_raises
    [⟨"ModX", fun _ => .ok ()⟩, ⟨"ModY", fun _ => .error (.raised .nullPointer)⟩,
      ⟨"ModZ", fun _ => .ok ()⟩] []
    ⟨"game", [("ModX", .null), ("ModY", .null), ("ModZ", .null)]⟩
    [("ModX", .null)] [("ModZ", .null)] ("ModY", .null)
    ⟨"ModY", fun _ => .error (.raised .nullPointer)⟩ (.raised .nullPointer)
    rfl (by decide) rfl rfl
    (by
      intro p hp earlier hf
      simp only [List.mem_singleton] at hp
      subst hp
      have : earlier = ⟨"ModX", fun _ => .ok ()⟩ := by
        have h0 : List.find? (fun handler => ("ModX", Value.null).1 == handler.Name)
            [(⟨"ModX", fun _ => .ok ()⟩ : ModuleHandlerData),
              ⟨"ModY", fun _ => .error (.raised .nullPointer)⟩, ⟨"ModZ", fun _ => .ok ()⟩]
            = some ⟨"ModX", fun _ => .ok ()⟩ := rfl
        rw [h0] at hf
        exact (Option.some.inj hf).symm
      rw [this])
  ⟨h.1.trans rfl, h.2.1.trans rfl⟩

end Config

namespace SDR

open rapidjson Config.Registry

/-! ## The named registry -/

theorem GetKeyValue_loop_append_of_mem (strings : Nat → String) (name : String)
    (front back : List DataType) (value : Nat)
    (h : ∃ entry ∈ front, strings entry.Name = name) :
    ModuleShared.Registry.GetKeyValue.loop strings name (front ++ back) value
      = ModuleShared.Registry.GetKeyValue.loop strings name front value := by
  induction front with
  | nil => simp at h
  | cons first rest ih =>
    by_cases hn : strings first.Name = name
    · simp [ModuleShared.Registry.GetKeyValue.loop, hn]
    · obtain ⟨entry, hmem, hname⟩ := h
      have hrest : ∃ entry ∈ rest, strings entry.Name = name := by
        rcases List.mem_cons.mp hmem with rfl | hmem
        · exact absurd hname hn
        · exact ⟨entry, hmem, hname⟩
      simp only [List.cons_append, ModuleShared.Registry.GetKeyValue.loop, hn, if_false]
      exact ih hrest

theorem GetKeyValue_loop_append_of_not_mem (strings : Nat → String) (name : String)
    (front back : List DataType) (value : Nat)
    (h : ∀ entry ∈ front, strings entry.Name ≠ name) :
    ModuleShared.Registry.GetKeyValue.loop strings name (front ++ back) value
      = ModuleShared.Registry.GetKeyValue.loop strings name back value := by
  induction front with
  | nil => rfl
  | cons first rest ih =>
    have hn : strings first.Name ≠ name := h first (List.mem_cons_self _ _)
    simp only [List.cons_append, ModuleShared.Registry.GetKeyValue.loop, hn, if_false]
    exact ih (fun entry hmem => h entry (List.mem_cons_of_mem _ hmem))

theorem afterCalls_eq_map (calls : List ModuleShared.Registry.Call) :
    ModuleShared.Registry.afterCalls calls
      = calls.map (fun call =>
          ({ Name := call.name, TypeNumber := .UInt32, Value_U32 := call.value } : DataType)) := by
  have key : ∀ (init : List DataType),
      calls.foldl
          (fun KeyValues call =>
            ModuleShared.Registry.SetKeyValue KeyValues call.name call.value) init
        = init ++ calls.map (fun call =>
            ({ Name := call.name, TypeNumber := .UInt32, Value_U32 := call.value } : DataType)) := by
    induction calls with
    | nil => intro init; simp
    | cons call rest ih =>
      intro init
      rw [List.foldl_cons, ih]
      simp [ModuleShared.Registry.SetKeyValue, InsertKeyValue, DataType.SetValue]
  simpa [ModuleShared.Registry.afterCalls] using key []

/-- The lookup after a sequence of calls: the value of the first call whose
pointer holds the text `name` when the lookup is made. -/
theorem GetKeyValue_afterCalls (strings : Nat → String)
    (calls : List ModuleShared.Registry.Call) (name : String) :
    ModuleShared.Registry.GetKeyValue strings (ModuleShared.Registry.afterCalls calls) name
      = match calls.find? (fun call => strings call.name == name) with
        | some call => (true, call.value)
        | none => (false, 0) := by
  rw [afterCalls_eq_map]
  unfold ModuleShared.Registry.GetKeyValue
  induction calls with
  | nil => rfl
  | cons call rest ih =>
    by_cases hn : strings call.name = name
    · rw [List.find?_cons_of_pos _ (by simpa using hn)]
      simp [ModuleShared.Registry.GetKeyValue.loop, hn, DataType.GetActiveValue,
        TypeReturn.toBool, TypeReturn.Get]
    · rw [List.find?_cons_of_neg _ (by simpa using hn)]
      simp only [List.map_cons, ModuleShared.Registry.GetKeyValue.loop, hn, if_false]
      exact ih

/-- C20, the code at a name buffer that is used twice. `SetKeyValue` is called
with the buffer at address 100 holding `"a"` and the value 5, then with the
same buffer holding `"b"` and the value 6. The registry keeps the pointer
twice; at the lookup the buffer holds `"b"`: `GetKeyValue("a")` returns
`false`, although a call was made with the name `"a"`, and `GetKeyValue("b")`
returns 5, the value of the call made with the name `"a"`, not 6. -/
theorem GetKeyValue_reused_buffer :
    ModuleShared.Registry.GetKeyValue (fun address => if address = 100 then "b" else "")
        (ModuleShared.Registry.afterCalls [⟨100, "a", 5⟩, ⟨100, "b", 6⟩]) "a" = (false, 0) ∧
    ModuleShared.Registry.GetKeyValue (fun address => if address = 100 then "b" else "")
        (ModuleShared.Registry.afterCalls [⟨100, "a", 5⟩, ⟨100, "b", 6⟩]) "b" = (true, 5) :=
  ⟨by decide, by decide⟩

/-- C20, amended. The named registry is append-only with first-match lookup,
on names that it holds by their pointers: after any sequence of calls of
`SetKeyValue` whose name buffers hold, when the lookup is made, the text that
they held at the call (as string literals do), `GetKeyValue(n, &v)` returns
`true` with `v` the value of the earliest call made with the name `n`, and
`false` with `v = 0` when no call used the name `n`; a later `SetKeyValue`,
with the same name or another, does not change what `GetKeyValue` returns for a
name that was set. -/
theorem GetKeyValue_first_match (strings : Nat → String)
    (calls : List ModuleShared.Registry.Call) (name : String)
    (hstable : ∀ call ∈ calls, strings call.name = call.text) :
    (∀ (front back : List ModuleShared.Registry.Call) (call : ModuleShared.Registry.Call),
      calls = front ++ call :: back → call.text = name → (∀ c ∈ front, c.text ≠ name) →
      ModuleShared.Registry.GetKeyValue strings (ModuleShared.Registry.afterCalls calls) name
        = (true, call.value)) ∧
    ((∀ call ∈ calls, call.text ≠ name) →
      ModuleShared.Registry.GetKeyValue strings (ModuleShared.Registry.afterCalls calls) name
        = (false, 0)) ∧
    (∀ (value : Nat) (later : Nat) (other : Nat),
      ModuleShared.Registry.GetKeyValue strings (ModuleShared.Registry.afterCalls calls) name
        = (true, value) →
      ModuleShared.Registry.GetKeyValue strings
          (ModuleShared.Registry.SetKeyValue (ModuleShared.Registry.afterCalls calls) later other)
          name
        = (true, value)) := by
  refine ⟨?_, ?_, ?_⟩
  · intro front back call hcalls htext hfront
    rw [GetKeyValue_afterCalls]
    have hcall : strings call.name = name := by
      rw [hstable call (by rw [hcalls]; simp), htext]
    have hfront' : ∀ c ∈ front, strings c.name ≠ name := by
      intro c hc
      rw [hstable c (by rw [hcalls]; simp [hc])]
      exact hfront c hc
    rw [hcalls]
    clear hcalls hstable hfront
    have : (front ++ call :: back).find? (fun c => strings c.name == name) = some call := by
      induction front with
      | nil => rw [List.nil_append, List.find?_cons_of_pos _ (by simpa using hcall)]
      | cons c rest ih =>
        have hc : strings c.name ≠ name := hfront' c (List.mem_cons_self _ _)
        rw [List.cons_append, List.find?_cons_of_neg _ (by simpa using hc)]
        exact ih (fun c' hmem => hfront' c' (List.mem_cons_of_mem _ hmem))
    rw [this]
  · intro hno
    rw [GetKeyValue_afterCalls]
    have : calls.find? (fun call => strings call.name == name) = none := by
      rw [List.find?_eq_none]
      intro call hmem
      have := hno call hmem
      rw [← hstable call hmem] at this
      simpa using this
    rw [this]
  · intro value later other hget
    unfold ModuleShared.Registry.GetKeyValue ModuleShared.Registry.SetKeyValue InsertKeyValue
    unfold ModuleShared.Registry.GetKeyValue at hget
    dsimp only
    by_cases hmem : ∃ entry ∈ ModuleShared.Registry.afterCalls calls, strings entry.Name = name
    · rw [GetKeyValue_loop_append_of_mem strings name _ _ 0 hmem]
      exact hget
    · have hno : ∀ entry ∈ ModuleShared.Registry.afterCalls calls, strings entry.Name ≠ name :=
        fun entry he hn => hmem ⟨entry, he, hn⟩
      have hnone := GetKeyValue_loop_append_of_not_mem strings name
        (ModuleShared.Registry.afterCalls calls) [] 0 hno
      rw [List.append_nil] at hnone
      rw [hnone] at hget
      simp [ModuleShared.Registry.GetKeyValue.loop] at hget

theorem GetKeyValue_first_match_witness :
    ModuleShared.Registry.GetKeyValue
        (fun address => if address = 100 then "a" else if address = 200 then "b" else "")
        (ModuleShared.Registry.afterCalls [⟨100, "a", 5⟩, ⟨200, "b", 6⟩, ⟨100, "a", 7⟩]) "a"
      = (true, 5) ∧
    ModuleShared.Registry.GetKeyValue
        (fun address => if address = 100 then "a" else if address = 200 then "b" else "")
        (ModuleShared.Registry.afterCalls [⟨100, "a", 5⟩, ⟨200, "b", 6⟩, ⟨100, "a", 7⟩]) "c"
      = (false, 0) :=
  ⟨(GetKeyValue_first_match
      (fun address => if address = 100 then "a" else if address = 200 then "b" else "")
      [⟨100, "a", 5⟩, ⟨200, "b", 6⟩, ⟨100, "a", 7⟩] "a" (by decide)).1
      [] [⟨200, "b", 6⟩, ⟨100, "a", 7⟩] ⟨100, "a", 5⟩ rfl rfl (by simp),
    (GetKeyValue_first_match
      (fun address => if address = 100 then "a" else if address = 200 then "b" else "")
      [⟨100, "a", 5⟩, ⟨200, "b", 6⟩, ⟨100, "a", 7⟩] "c" (by decide)).2.1 (by decide)⟩

/-! ## Virtual tables -/

theorem GetKeyValue_eq_find (strings : Nat → String) (KeyValues : List DataType)
    (name : String) :
    ModuleShared.Registry.GetKeyValue strings KeyValues name
      = match KeyValues.find? (fun entry => strings entry.Name == name) with
        | some entry => (true, if entry.TypeNumber = .UInt32 then entry.Value_U32 else 0)
        | none => (false, 0) := by
  unfold ModuleShared.Registry.GetKeyValue
  induction KeyValues with
  | nil => rfl
  | cons first rest ih =>
    by_cases hn : strings first.Name = name
    · rw [List.find?_cons_of_pos _ (by simpa using hn)]
      cases ht : first.TypeNumber <;>
        simp [ModuleShared.Registry.GetKeyValue.loop, hn, DataType.GetActiveValue,
          TypeReturn.toBool, TypeReturn.Get, ht]
    · rw [List.find?_cons_of_neg _ (by simpa using hn)]
      simp only [ModuleShared.Registry.GetKeyValue.loop, hn, if_false]
      exact ih

/-- C16. Resolution of a virtual table through the registry fails in the two
cases, before any read of a table: with `VTPtrName` = `n`,
`SDR::GetVirtualAddressFromJson(value)` raises an error when no registry entry
holds, by its pointer, the name `n`, and raises an error when the entry found for `n` holds 0; the
memory is read only when the entry found holds a value that is not 0, and
then the table of that instance is read at `VTIndex`. -/
theorem GetVirtualAddressFromJson_registry (ptrsize : Nat) (mem : Nat → Nat)
    (strings : Nat → String) (KeyValues : List DataType) (value : Value) (n : String)
    (hname : Json.GetString value "VTPtrName" = .ok n) :
    ((∀ entry ∈ KeyValues, strings entry.Name ≠ n) →
      GetVirtualAddressFromJson ptrsize mem strings KeyValues value
        = ([], .error (.raised (.virtualObjectNotFound n)))) ∧
    (∀ entry, KeyValues.find? (fun e => strings e.Name == n) = some entry → entry.Value_U32 = 0 →
      GetVirtualAddressFromJson ptrsize mem strings KeyValues value
        = ([], .error (.raised (.registryValueNull n)))) ∧
    ((GetVirtualAddressFromJson ptrsize mem strings KeyValues value).1 ≠ [] →
      ∃ entry, KeyValues.find? (fun e => strings e.Name == n) = some entry ∧ entry.Value_U32 ≠ 0) ∧
    (∀ entry index, KeyValues.find? (fun e => strings e.Name == n) = some entry →
      entry.TypeNumber = .UInt32 → entry.Value_U32 ≠ 0 →
      GetVirtualIndexFromJson value = .ok index →
      GetVirtualAddressFromJson ptrsize mem strings KeyValues value
        = ([.memoryRead entry.Value_U32,
            .memoryRead (((mem entry.Value_U32 : Nat) : Int) + (ptrsize : Int) * index).toNat],
          .ok (mem (((mem entry.Value_U32 : Nat) : Int) + (ptrsize : Int) * index).toNat))) := by
  refine ⟨?_, ?_, ?_, ?_⟩
  · intro hno
    have hfind : KeyValues.find? (fun e => strings e.Name == n) = none := by
      rw [List.find?_eq_none]
      intro entry hmem
      simpa using hno entry hmem
    simp [GetVirtualAddressFromJson, hname, GetKeyValue_eq_find, hfind]
  · intro entry hfind hzero
    simp [GetVirtualAddressFromJson, hname, GetKeyValue_eq_find, hfind, hzero,
      Error.ThrowIfNull]
  · intro hlog
    cases hfind : KeyValues.find? (fun e => strings e.Name == n) with
    | none =>
      exact absurd (by simp [GetVirtualAddressFromJson, hname, GetKeyValue_eq_find, hfind]) hlog
    | some entry =>
      refine ⟨entry, rfl, ?_⟩
      intro hzero
      exact absurd (by simp [GetVirtualAddressFromJson, hname, GetKeyValue_eq_find, hfind,
        hzero, Error.ThrowIfNull]) hlog
  · intro entry index hfind htype hnz hindex
    simp [GetVirtualAddressFromJson, hname, GetKeyValue_eq_find, hfind, htype, hnz,
      Error.ThrowIfNull, GetVirtualAddressFromJson.ofPtr, hindex, GetVirtualAddressFromIndex]

theorem GetVirtualAddressFromJson_registry_witness :
    GetVirtualAddressFromJson 4 (fun a => a + 1000)
        (fun a => if a = 100 then "a" else if a = 200 then "b" else "")
        (ModuleShared.Registry.afterCalls [⟨100, "a", 0⟩, ⟨200, "b", 6⟩])
        (.obj [("VTIndex", .int 3), ("VTPtrName", .str "c")])
      = ([], .error (.raised (.virtualObjectNotFound "c"))) ∧
    GetVirtualAddressFromJson 4 (fun a => a + 1000)
        (fun a => if a = 100 then "a" else if a = 200 then "b" else "")
        (ModuleShared.Registry.afterCalls [⟨100, "a", 0⟩, ⟨200, "b", 6⟩])
        (.obj [("VTIndex", .int 3), ("VTPtrName", .str "a")])
      = ([], .error (.raised (.registryValueNull "a"))) ∧
    GetVirtualAddressFromJson 4 (fun a => a + 1000)
        (fun a => if a = 100 then "a" else if a = 200 then "b" else "")
        (ModuleShared.Registry.afterCalls [⟨100, "a", 0⟩, ⟨200, "b", 6⟩])
        (.obj [("VTIndex", .int 3), ("VTPtrName", .str "b")])
      = ([.memoryRead 6, .memoryRead 1018], .ok 2018) :=
  ⟨(GetVirtualAddressFromJson_registry 4 (fun a => a + 1000)
      (fun a => if a = 100 then "a" else if a = 200 then "b" else "")
      (ModuleShared.Registry.afterCalls [⟨100, "a", 0⟩, ⟨200, "b", 6⟩])
      (.obj [("VTIndex", .int 3), ("VTPtrName", .str "c")]) "c" rfl).1 (by decide),
    (GetVirtualAddressFromJson_registry 4 (fun a => a + 1000)
      (fun a => if a = 100 then "a" else if a = 200 then "b" else "")
      (ModuleShared.Registry.afterCalls [⟨100, "a", 0⟩, ⟨200, "b", 6⟩])
      (.obj [("VTIndex", .int 3), ("VTPtrName", .str "a")]) "a" rfl).2.1
      ⟨100, .UInt32, 0⟩ rfl rfl,
    (GetVirtualAddressFromJson_registry 4 (fun a => a + 1000)
      (fun a => if a = 100 then "a" else if a = 200 then "b" else "")
      (ModuleShared.Registry.afterCalls [⟨100, "a", 0⟩, ⟨200, "b", 6⟩])
      (.obj [("VTIndex", .int 3), ("VTPtrName", .str "b")]) "b" rfl).2.2.2
      ⟨200, .UInt32, 6⟩ 3 rfl rfl (by decide) rfl⟩

end SDR

namespace SDR

open rapidjson

/-! ## Hook creation -/

theorem ThrowIfNull_ok {ptr : Nat} {e : Error} (h : Error.ThrowIfNull ptr e = .ok ()) :
    ptr ≠ 0 := by
  intro h0
  simp [Error.ThrowIfNull, h0] at h

theorem GetAddressFromJsonPattern_ne_null (init : BytePattern.Entry) (finders : Finders)
    (value : Value) (address : Nat)
    (h : GetAddressFromJsonPattern init finders value = .ok address) : address ≠ 0 := by
  unfold GetAddressFromJsonPattern at h
  split at h
  · simp at h
  · split at h
    · simp at h
    · dsimp only at h
      split at h
      · simp at h
      · split at h
        · simp at h
        · rename_i hnull
          split at h
          · simp at h
          · rename_i hthrow
            have haddr := ThrowIfNull_ok hthrow
            split at h
            · split at h
              · simp at h
              · rename_i hjump
                have hj := ThrowIfNull_ok hjump
                have h0 := Except.ok.inj h
                rw [← h0]
                exact hj
            · have h0 := Except.ok.inj h
              rw [← h0]
              exact haddr

theorem CreateHookBare_events (mh : MinHook) (hook : HookModuleBare) (override address : Nat) :
    ∀ event ∈ (CreateHookBare mh hook override address).1,
      event = .MH_CreateHookEx address override ∨ event = .MH_EnableHook address := by
  intro event hmem
  unfold CreateHookBare at hmem
  dsimp only at hmem
  split at hmem
  · simp at hmem
    exact Or.inl hmem
  · split at hmem
    · simp at hmem
      exact hmem
    · simp at hmem
      exact hmem

/-- C15, the code at a null target. `SDR::CreateHookBare` holds no test of the
address: with `address = 0` it calls `MH_CreateHookEx` with the null target.
When the hooking subsystem answers a null target with an error status, the
error raised is the one made from that status; when it answers `MH_OK`, no
error is raised at all and `MH_EnableHook` is called with the null target
too. -/
theorem CreateHookBare_null_reaches_hooking :
    CreateHookBare ⟨fun target _ => if target = 0 then (7, 0) else (0, 100), fun _ => 0⟩
        ⟨0, 0, 0⟩ 5 0
      = ([.MH_CreateHookEx 0 5], .error (.raised (.couldNotCreateHook 7))) ∧
    CreateHookBare ⟨fun _ _ => (0, 100), fun _ => 0⟩ ⟨0, 0, 0⟩ 5 0
      = ([.MH_CreateHookEx 0 5, .MH_EnableHook 0], .ok ⟨0, 5, 100⟩) :=
  ⟨rfl, rfl⟩

/-- C15, amended. `SDR::CreateHookBare(hook, override, 0)` calls
`MH_CreateHookEx` with the null target first, and raises an error exactly when
the hooking subsystem returns a status other than `MH_OK`, for the creation or
for the enabling. A null target is kept from the hooking subsystem on the way
through `SDR::CreateHookBareShort`: `SDR::GetAddressFromJsonPattern` raises an
error for a null address, so no call of the hooking subsystem there has a null
target. -/
theorem CreateHookBare_null (init : BytePattern.Entry) (finders : Finders) (mh : MinHook)
    (hook : HookModuleBare) (override : Nat) (value : Value) :
    (∃ rest, (CreateHookBare mh hook override 0).1 = .MH_CreateHookEx 0 override :: rest) ∧
    ((∃ e, (CreateHookBare mh hook override 0).2 = .error e) ↔
      ((mh.CreateHookEx 0 override).1 ≠ MH_OK ∨ mh.EnableHook 0 ≠ MH_OK)) ∧
    (∀ address, GetAddressFromJsonPattern init finders value = .ok address → address ≠ 0) ∧
    (∀ event ∈ (CreateHookBareShort init finders mh hook override value).1,
      ¬ IsNullTargetCall event) := by
  refine ⟨?_, ?_, GetAddressFromJsonPattern_ne_null init finders value, ?_⟩
  · unfold CreateHookBare
    dsimp only
    split
    · exact ⟨[], rfl⟩
    · split
      · exact ⟨_, rfl⟩
      · exact ⟨_, rfl⟩
  · unfold CreateHookBare
    dsimp only
    by_cases h1 : (mh.CreateHookEx 0 override).1 ≠ MH_OK
    · simp [h1]
    · by_cases h2 : mh.EnableHook 0 ≠ MH_OK
      · simp [h1, h2]
      · simp [h1, h2]
  · intro event hmem
    unfold CreateHookBareShort at hmem
    split at hmem
    · simp at hmem
    · rename_i address haddr
      have hne := GetAddressFromJsonPattern_ne_null init finders value address haddr
      rcases CreateHookBare_events mh hook override address event hmem with rfl | rfl
      · exact hne
      · exact hne

theorem CreateHookBare_null_witness :
    (∃ rest, (CreateHookBare ⟨fun target _ => if target = 0 then (7, 0) else (0, 100),
        fun _ => 0⟩ ⟨0, 0, 0⟩ 5 0).1 = .MH_CreateHookEx 0 5 :: rest) ∧
    (CreateHookBareShort ⟨0, false⟩ ⟨fun _ _ _ => 0, fun a => a⟩
        ⟨fun _ _ => (0, 100), fun _ => 0⟩ ⟨0, 0, 0⟩ 5
        (.obj [("Module", .str "engine.dll"), ("Pattern", .str "90 90")])).2
      = .error (.raised .nullPointer) ∧
    ∀ event ∈ (CreateHookBareShort ⟨0, false⟩ ⟨fun _ _ _ => 0, fun a => a⟩
        ⟨fun _ _ => (0, 100), fun _ => 0⟩ ⟨0, 0, 0⟩ 5
        (.obj [("Module", .str "engine.dll"), ("Pattern", .str "90 90")])).1,
      ¬ IsNullTargetCall event :=
  ⟨(CreateHookBare_null ⟨0, false⟩ ⟨fun _ _ _ => 0, fun a => a⟩
      ⟨fun target _ => if target = 0 then (7, 0) else (0, 100), fun _ => 0⟩ ⟨0, 0, 0⟩ 5
      .null).1,
    rfl,
    (CreateHookBare_null ⟨0, false⟩ ⟨fun _ _ _ => 0, fun a => a⟩
      ⟨fun _ _ => (0, 100), fun _ => 0⟩ ⟨0, 0, 0⟩ 5
      (.obj [("Module", .str "engine.dll"), ("Pattern", .str "90 90")])).2.2.2⟩

end SDR

namespace LoadLibraryIntercept

open SDR

/-! ## Interception of library loads -/

theorem Override_eq (load : InterceptedLoad) :
    Override load = if Triggers load then [.LibraryLoad] else [] := by
  obtain ⟨api, name, ret⟩ := load
  by_cases hret : ret = 0
  · simp [Override, Triggers, hret]
  · cases api <;>
      by_cases hend : String.EndsWith name "server.dll" = true <;>
      simp [Override, Triggers, hret, Common.Load, Common.LoadWide, Common.CheckTable, hend]

/-- C17, the code at two intercepted loads. Two loads of `"bin/server.dll"`
that succeed, by `LoadLibraryA` and by `LoadLibraryExA`, are intercepted:
`SDR::Library::Load()` is called twice. The same holds when the first of the
two is made from inside the second (a re-entrant load). -/
theorem intercept_twice :
    intercept [⟨.A, "bin/server.dll", 1⟩, ⟨.ExA, "bin/server.dll", 1⟩]
      = [.LibraryLoad, .LibraryLoad] :=
  rfl

/-- C17, amended. The interceptor keeps no record of an attachment: over every
sequence of intercepted loads it calls `SDR::Library::Load()` once for each
load by a `char` name ending in `"server.dll"` that has succeeded, and for no
other load (a failed load, a load by a `wchar_t` name). So the attachment is
triggered at most once exactly when at most one such load is intercepted. -/
theorem intercept_eq_triggers (loads : List InterceptedLoad) :
    intercept loads = List.replicate (loads.countP Triggers) .LibraryLoad ∧
    ((intercept loads).length ≤ 1 ↔ loads.countP Triggers ≤ 1) ∧
    (∀ load ∈ loads, (load.api = .W ∨ load.api = .ExW ∨ load.ret = 0) → Override load = []) := by
  have h : intercept loads = List.replicate (loads.countP Triggers) .LibraryLoad := by
    induction loads with
    | nil => rfl
    | cons load rest ih =>
      rw [intercept, Override_eq, ih, List.countP_cons]
      by_cases ht : Triggers load = true
      · simp [ht, List.replicate_succ]
      · simp [ht]
  refine ⟨h, by rw [h, List.length_replicate], ?_⟩
  intro load _ hcase
  rw [Override_eq]
  have : Triggers load = false := by
    rcases hcase with h1 | h1 | h1 <;> simp [Triggers, h1]
  simp [this]

theorem intercept_eq_triggers_witness :
    intercept [⟨.W, "bin/server.dll", 1⟩, ⟨.A, "bin/client.dll", 1⟩, ⟨.A, "bin/server.dll", 0⟩,
        ⟨.ExA, "bin/server.dll", 1⟩]
      = [.LibraryLoad] :=
  (intercept_eq_triggers [⟨.W, "bin/server.dll", 1⟩, ⟨.A, "bin/client.dll", 1⟩,
    ⟨.A, "bin/server.dll", 0⟩, ⟨.ExA, "bin/server.dll", 1⟩]).1.trans rfl

end LoadLibraryIntercept

namespace Memory

/-! ## The reads of the scanner -/

theorem MatchesAt_append (R extra : List Nat) (P : BytePattern) (i : Nat)
    (hfit : i + P.length ≤ R.length) : MatchesAt (R ++ extra) P i ↔ MatchesAt R P i := by
  unfold MatchesAt
  constructor
  · rintro ⟨_, h⟩
    refine ⟨hfit, fun k e hk hu => ?_⟩
    have hklt : k < P.length := by
      by_contra hge
      rw [List.getElem?_eq_none (by omega)] at hk
      exact absurd hk (by simp)
    have := h k e hk hu
    rwa [List.getElem?_append_left (by omega)] at this
  · rintro ⟨_, h⟩
    refine ⟨by rw [List.length_append]; omega, fun k e hk hu => ?_⟩
    have hklt : k < P.length := by
      by_contra hge
      rw [List.getElem?_eq_none (by omega)] at hk
      exact absurd hk (by simp)
    rw [List.getElem?_append_left (by omega)]
    exact h k e hk hu

/-- The scan over a region in which the pattern fits, with any memory after
the region: the lowest matching offset of the region, or `nullptr`. -/
theorem FindPattern_of_fits (w : Nat) (R extra : List Nat) (P : BytePattern)
    (hP : 1 ≤ P.length) (hfit : P.length ≤ R.length) (hR : R.length < 2 ^ w) :
    (∃ i0, FindPattern w (R ++ extra) R.length P = .ok (some i0) ∧ MatchesAt R P i0 ∧
      ∀ j, j < i0 → ¬ MatchesAt R P j) ∨
    (FindPattern w (R ++ extra) R.length P = .ok none ∧ ∀ i, ¬ MatchesAt R P i) := by
  classical
  unfold FindPattern
  rw [scanBound_of_le w R.length P.length hfit hR]
  have hlen : R.length - P.length + P.length ≤ (R ++ extra).length := by
    rw [List.length_append]; omega
  by_cases hex : ∃ i, MatchesAt R P i
  · left
    have hm := Nat.find_spec hex
    have hb : Nat.find hex ≤ R.length - P.length := by have := hm.1; omega
    refine ⟨Nat.find hex, ?_, hm, fun j hj => Nat.find_min hex hj⟩
    exact FindPattern.loop_found w (R ++ extra) P (R.length - P.length) (Nat.find hex)
      (by omega) hlen hb ((MatchesAt_append R extra P _ hm.1).mpr hm) (2 ^ w + 1) 0
      (Nat.zero_le _) (by omega)
      (fun j _ hj hmj => Nat.find_min hex hj
        ((MatchesAt_append R extra P j (by omega)).mp hmj))
  · right
    refine ⟨?_, fun i hi => hex ⟨i, hi⟩⟩
    exact FindPattern.loop_notFound w (R ++ extra) P (R.length - P.length) (by omega) hlen
      (2 ^ w + 1) 0 (Nat.zero_le _) (by omega)
      (fun j _ hj hmj => hex ⟨j, (MatchesAt_append R extra P j (by omega)).mp hmj⟩)

/-- C19. When the pattern is not empty and not longer than the region
(`1 <= |P| <= searchlength`), `Memory::FindPattern` reads only bytes of the
region and entries of the pattern: every offset `i` up to the bound of the loop
has `i + |P| <= searchlength`, every call of `DataCompare` there returns
without a read out of bounds, the scan over the region alone returns a value
(the out-of-bounds outcome is not reached), and what lies in memory after the
region does not change the result. -/
theorem FindPattern_reads_in_bounds (w : Nat) (R extra : List Nat) (P : BytePattern)
    (hP : 1 ≤ P.length) (hfit : P.length ≤ R.length) (hR : R.length < 2 ^ w) :
    (∀ i, i ≤ scanBound w R.length P.length → i + P.length ≤ R.length) ∧
    (∀ i, i ≤ scanBound w R.length P.length →
      ∃ b, DataCompare (R.drop i) P P.length = .ok b) ∧
    (∃ r, FindPattern w R R.length P = .ok r) ∧
    FindPattern w (R ++ extra) R.length P = FindPattern w R R.length P := by
  classical
  have hbound := scanBound_of_le w R.length P.length hfit hR
  have hnil := FindPattern_of_fits w R [] P hP hfit hR
  rw [List.append_nil] at hnil
  refine ⟨fun i hi => by rw [hbound] at hi; omega, fun i hi => ?_, ?_, ?_⟩
  · rw [hbound] at hi
    by_cases hm : MatchesAt R P i
    · exact ⟨true, (DataCompare_drop R P i (by omega)).1 hm⟩
    · exact ⟨false, (DataCompare_drop R P i (by omega)).2 hm⟩
  · rcases hnil with ⟨i0, h, _, _⟩ | ⟨h, _⟩
    · exact ⟨some i0, h⟩
    · exact ⟨none, h⟩
  · rcases FindPattern_of_fits w R extra P hP hfit hR with ⟨i0, h, hm, hmin⟩ | ⟨h, hno⟩
    · rcases hnil with ⟨i1, h', hm', hmin'⟩ | ⟨_, hno'⟩
      · have : i0 = i1 := by
          rcases Nat.lt_trichotomy i0 i1 with hlt | heq | hgt
          · exact absurd hm (hmin' i0 hlt)
          · exact heq
          · exact absurd hm' (hmin i1 hgt)
        rw [h, h', this]
      · exact absurd hm (hno' i0)
    · rcases hnil with ⟨i1, _, hm', _⟩ | ⟨h', _⟩
      · exact absurd hm' (hno i1)
      · rw [h, h']

theorem FindPattern_reads_in_bounds_witness :
    (∃ r, FindPattern 32 [0x00, 0x4D, 0x5A] 3 [⟨0x4D, false⟩, ⟨0x5A, false⟩] = .ok r) ∧
    FindPattern 32 ([0x00, 0x4D, 0x5A] ++ [0x4D, 0x5A]) 3 [⟨0x4D, false⟩, ⟨0x5A, false⟩]
      = FindPattern 32 [0x00, 0x4D, 0x5A] 3 [⟨0x4D, false⟩, ⟨0x5A, false⟩] :=
  (FindPattern_reads_in_bounds 32 [0x00, 0x4D, 0x5A] [0x4D, 0x5A]
    [⟨0x4D, false⟩, ⟨0x5A, false⟩] (by decide) (by decide) (by decide)).2.2

end Memory

namespace SDR

/-! ## Whitespace in the pattern text -/

theorem IsSpace_facts {c : Char} (h : String.IsSpace c = true) :
    c.toNat ≠ 0 ∧ isxdigit c = false := by
  simp only [String.IsSpace, isspace, Bool.or_eq_true, Bool.and_eq_true,
    decide_eq_true_eq] at h
  refine ⟨by omega, ?_⟩
  simp only [isxdigit, Bool.or_eq_false_iff, Bool.and_eq_false_imp, decide_eq_false_iff_not,
    decide_eq_true_eq]
  omega

theorem token_chars {t : List Char} (ht : WellFormedToken t) :
    ∃ a b, t = [a, b] ∧ a.toNat ≠ 0 ∧ String.IsSpace a = false ∧
      b.toNat ≠ 0 ∧ String.IsSpace b = false := by
  rcases ht with rfl | ⟨a, b, rfl, ha, hb⟩
  · exact ⟨'?', '?', rfl, by decide, by decide, by decide, by decide⟩
  · have ha' := isxdigit_bounds ha
    have hb' := isxdigit_bounds hb
    exact ⟨a, b, rfl, by omega, isspace_of_isxdigit ha, by omega, isspace_of_isxdigit hb⟩

theorem token_step_tail (init : BytePattern.Entry) (t tail : List Char)
    (ht : WellFormedToken t) (htail : isxdigit (deref tail) = false) :
    advance2 (t ++ tail) = some tail ∧
    (if isxdigit (deref (t ++ tail)) then
        { init with Unknown := false, Value := toUInt8 (strtol16 (t ++ tail)) }
      else { init with Unknown := true }) = tokenEntry init t := by
  rcases ht with rfl | ⟨a, b, rfl, ha, hb⟩
  · refine ⟨rfl, ?_⟩
    have h : isxdigit (deref ('?' :: '?' :: tail)) = false := by
      exact (by decide : isxdigit '?' = false)
    simp [h, tokenEntry]
  · have hne : [a, b] ≠ ['?', '?'] := by
      intro h
      have : a = '?' := by simpa using (List.cons.inj h).1
      rw [this] at ha
      exact absurd ha (by decide)
    refine ⟨rfl, ?_⟩
    have h : isxdigit (deref ([a, b] ++ tail)) = true := ha
    have hv := strtol16_token a b tail ha hb htail
    simp only [List.cons_append, List.nil_append] at h hv ⊢
    simp only [h, if_true, hv, tokenEntry, hne, if_false]
    rfl

theorem deref_spacedWith_append (rest : List (Char × List Char)) (tail : List Char)
    (hrest : ∀ st ∈ rest, String.IsSpace st.1 = true ∧ WellFormedToken st.2)
    (htail : isxdigit (deref tail) = false) :
    isxdigit (deref (spacedWith rest ++ tail)) = false := by
  cases rest with
  | nil => exact htail
  | cons st rest => exact (IsSpace_facts (hrest st (List.mem_cons_self _ _)).1).2

/-- The iteration that reads the first token, after at most one whitespace
character. -/
theorem GetPatternFromString.loop_first (init : BytePattern.Entry) (lead t tail : List Char)
    (hlead : lead = [] ∨ ∃ c, lead = [c] ∧ String.IsSpace c = true)
    (ht : WellFormedToken t) (htail : isxdigit (deref tail) = false)
    (fuel : Nat) (ret : BytePattern) :
    GetPatternFromString.loop init (fuel + 1) (some (lead ++ t ++ tail)) false ret
      = GetPatternFromString.loop init fuel (some tail) true (ret ++ [tokenEntry init t]) := by
  obtain ⟨h1, h2⟩ := token_step_tail init t tail ht htail
  obtain ⟨a, b, rfl, ha0, has, _, _⟩ := token_chars ht
  rcases hlead with rfl | ⟨c, rfl, hc⟩
  · have hd : deref ([a, b] ++ tail) = a := rfl
    rw [hd] at h2
    rw [show ([] : List Char) ++ [a, b] ++ tail = [a, b] ++ tail from rfl]
    simp only [GetPatternFromString.loop, hd, ha0, if_false, has, Bool.false_eq_true, h1, h2]
  · have hd : deref ([c] ++ [a, b] ++ tail) = c := rfl
    have ht' : ([c] ++ [a, b] ++ tail).tail = [a, b] ++ tail := rfl
    simp only [GetPatternFromString.loop, hd, (IsSpace_facts hc).1, if_false, hc, if_true, ht',
      h1, h2]

/-- The iterations that read the further tokens, each after its one
separating whitespace character. -/
theorem GetPatternFromString.loop_spacedWith (init : BytePattern.Entry)
    (rest : List (Char × List Char)) (tail : List Char)
    (hrest : ∀ st ∈ rest, String.IsSpace st.1 = true ∧ WellFormedToken st.2)
    (htail : isxdigit (deref tail) = false) :
    ∀ (fuel : Nat) (ret : BytePattern),
      GetPatternFromString.loop init (fuel + rest.length) (some (spacedWith rest ++ tail)) true ret
        = GetPatternFromString.loop init fuel (some tail) true
            (ret ++ rest.map (fun st => tokenEntry init st.2)) := by
  induction rest with
  | nil => intro fuel ret; simp [spacedWith]
  | cons st rest ih =>
    intro fuel ret
    have hrest' : ∀ st' ∈ rest, String.IsSpace st'.1 = true ∧ WellFormedToken st'.2 :=
      fun st' h => hrest st' (List.mem_cons_of_mem _ h)
    obtain ⟨hsp, ht⟩ := hrest st (List.mem_cons_self _ _)
    obtain ⟨h1, h2⟩ := token_step_tail init st.2 (spacedWith rest ++ tail) ht
      (deref_spacedWith_append rest tail hrest' htail)
    have hd : deref (spacedWith (st :: rest) ++ tail) = st.1 := rfl
    have ht' : (spacedWith (st :: rest) ++ tail).tail = st.2 ++ (spacedWith rest ++ tail) := by
      simp [spacedWith]
    have hfuel : fuel + (st :: rest).length = (fuel + rest.length) + 1 := by
      simp only [List.length_cons]
      omega
    rw [hfuel]
    simp only [GetPatternFromString.loop, hd, (IsSpace_facts hsp).1, if_false, hsp, if_true, ht',
      h1, h2]
    rw [ih hrest' fuel]
    simp

/-- More fuel does not change a result that is not the lack of fuel. -/
theorem GetPatternFromString.loop_fuel (init : BytePattern.Entry) :
    ∀ (fuel extra : Nat) (input : Option (List Char)) (shouldbespace : Bool) (ret : BytePattern)
      (r : Result BytePattern),
      GetPatternFromString.loop init fuel input shouldbespace ret = r → r ≠ .error .outOfFuel →
      GetPatternFromString.loop init (fuel + extra) input shouldbespace ret = r := by
  intro fuel
  induction fuel with
  | zero =>
    intro extra input sbs ret r h hr
    simp only [GetPatternFromString.loop] at h
    exact absurd h.symm hr
  | succ fuel ih =>
    intro extra input sbs ret r h hr
    have hfuel : fuel + 1 + extra = (fuel + extra) + 1 := by omega
    rw [hfuel]
    cases input with
    | none => simpa [GetPatternFromString.loop] using h
    | some input =>
      simp only [GetPatternFromString.loop] at h ⊢
      split
      · rename_i h0
        rw [if_pos h0] at h
        exact h
      · rename_i h0
        rw [if_neg h0] at h
        split
        · rename_i hnext
          rw [hnext] at h
          exact h
        · rename_i next hnext
          rw [hnext] at h
          exact ih extra _ _ _ r h hr

theorem spaced_eq_spacedWith (ts : List (List Char)) :
    spaced ts = spacedWith (ts.map (fun t => (' ', t))) := by
  induction ts with
  | nil => rfl
  | cons t ts ih => simp [spaced, spacedWith, ih]

/-- The parse of a text of well-formed tokens, each after one separating
whitespace character, the first after at most one. -/
theorem GetPatternFromString_of_spacedWith (init : BytePattern.Entry) (lead first : List Char)
    (rest : List (Char × List Char))
    (hlead : lead = [] ∨ ∃ c, lead = [c] ∧ String.IsSpace c = true)
    (hfirst : WellFormedToken first)
    (hrest : ∀ st ∈ rest, String.IsSpace st.1 = true ∧ WellFormedToken st.2) :
    GetPatternFromString init (lead ++ first ++ spacedWith rest)
      = .ok ((first :: rest.map (fun st => st.2)).map (tokenEntry init)) := by
  have hnil : isxdigit (deref ([] : List Char)) = false := by decide
  have hx := deref_spacedWith_append rest [] hrest hnil
  rw [List.append_nil] at hx
  have h1 := GetPatternFromString.loop_first init lead first (spacedWith rest) hlead hfirst hx
    (1 + rest.length) []
  have h2 := GetPatternFromString.loop_spacedWith init rest [] hrest hnil 1
    ([] ++ [tokenEntry init first])
  rw [List.append_nil] at h2
  have h3 : GetPatternFromString.loop init 1 (some [])
      true ([] ++ [tokenEntry init first] ++ rest.map (fun st => tokenEntry init st.2))
      = .ok ([] ++ [tokenEntry init first] ++ rest.map (fun st => tokenEntry init st.2)) := by
    simp [GetPatternFromString.loop, deref]
  have hrun := h1.trans (h2.trans h3)
  obtain ⟨a, b, hab, _⟩ := token_chars hfirst
  have hlen : (lead ++ first ++ spacedWith rest).length + 1
      = (1 + rest.length + 1) + ((lead ++ first ++ spacedWith rest).length - 1 - rest.length) := by
    have hsw : rest.length ≤ (spacedWith rest).length := by
      clear hrest hx h1 h2 h3 hrun
      induction rest with
      | nil => simp [spacedWith]
      | cons st rest ih =>
        simp only [spacedWith, List.length_cons, List.length_append]
        omega
    simp only [List.length_append, hab, List.length_cons, List.length_nil]
    omega
  unfold GetPatternFromString
  rw [hlen, GetPatternFromString.loop_fuel init _ _ _ _ _ _ hrun (by simp)]
  simp [List.map_map]

/-- C18, at the texts of the claim. `"90 90"` parses to the two entries
`90 90`; with two spaces between the tokens, `"90  90"`, the formatting error
is raised; with a trailing space, `"90 90 "`, the pointer runs two characters
beyond the terminator and no pattern is returned. With four spaces between
the tokens a wildcard comes between the two entries. -/
theorem GetPatternFromString_whitespace_runs :
    GetPatternFromString ⟨0, false⟩ ['9', '0', ' ', '9', '0'] = .ok [⟨0x90, false⟩, ⟨0x90, false⟩] ∧
    GetPatternFromString ⟨0, false⟩ ['9', '0', ' ', ' ', '9', '0']
      = .error (.raised .bytePairFormatting) ∧
    GetPatternFromString ⟨0, false⟩ ['9', '0', ' ', '9', '0', ' '] = .error .outOfBounds ∧
    GetPatternFromString ⟨0, false⟩ ['9', '0', ' ', ' ', ' ', ' ', '9', '0']
      = .ok [⟨0x90, false⟩, ⟨0, true⟩, ⟨0x90, false⟩] := by
  refine ⟨by decide, by decide, by decide, by decide⟩

theorem spacedWith_length (rest : List (Char × List Char)) :
    rest.length ≤ (spacedWith rest).length := by
  induction rest with
  | nil => simp [spacedWith]
  | cons st rest ih =>
    simp only [spacedWith, List.length_cons, List.length_append]
    omega

/-- Two whitespace characters between two tokens: the formatting error. -/
theorem GetPatternFromString_of_double_whitespace (init : BytePattern.Entry)
    (first : List Char) (rest : List (Char × List Char)) (s1 s2 : Char) (next more : List Char)
    (hfirst : WellFormedToken first)
    (hrest : ∀ st ∈ rest, String.IsSpace st.1 = true ∧ WellFormedToken st.2)
    (hs1 : String.IsSpace s1 = true) (hs2 : String.IsSpace s2 = true)
    (hnext : WellFormedToken next) :
    GetPatternFromString init (first ++ spacedWith rest ++ s1 :: s2 :: (next ++ more))
      = .error (.raised .bytePairFormatting) := by
  obtain ⟨a, b, rfl, _, _, hb0, hbs⟩ := token_chars hnext
  rw [show [a, b] ++ more = a :: b :: more from rfl]
  have htail : isxdigit (deref (s1 :: s2 :: a :: b :: more)) = false := (IsSpace_facts hs1).2
  have hx := deref_spacedWith_append rest (s1 :: s2 :: a :: b :: more) hrest htail
  have h1 := GetPatternFromString.loop_first init [] first
    (spacedWith rest ++ s1 :: s2 :: a :: b :: more) (Or.inl rfl) hfirst hx
    (2 + rest.length) []
  have h2 := GetPatternFromString.loop_spacedWith init rest (s1 :: s2 :: a :: b :: more)
    hrest htail 2 ([] ++ [tokenEntry init first])
  have h3 : ∀ ret, GetPatternFromString.loop init 2 (some (s1 :: s2 :: a :: b :: more)) true ret
      = .error (.raised .bytePairFormatting) := by
    intro ret
    have hd1 : deref (s1 :: s2 :: a :: b :: more) = s1 := rfl
    have hd2 : deref (s2 :: a :: b :: more) = s2 := rfl
    have hadv : advance2 (s2 :: a :: b :: more) = some (b :: more) := rfl
    have hd3 : deref (b :: more) = b := rfl
    simp only [GetPatternFromString.loop, hd1, (IsSpace_facts hs1).1, if_false, hs1, if_true,
      List.tail_cons, hd2, (IsSpace_facts hs2).2, Bool.false_eq_true, hadv, hd3, hb0, hbs]
  have hrun := h1.trans (h2.trans (h3 _))
  obtain ⟨c, d, hcd, _⟩ := token_chars hfirst
  have hassoc : first ++ spacedWith rest ++ s1 :: s2 :: a :: b :: more
      = [] ++ first ++ (spacedWith rest ++ s1 :: s2 :: a :: b :: more) := by
    simp
  have hsw := spacedWith_length rest
  have hlen : ([] ++ first ++ (spacedWith rest ++ s1 :: s2 :: a :: b :: more)).length + 1
      = (2 + rest.length + 1) +
        (([] ++ first ++ (spacedWith rest ++ s1 :: s2 :: a :: b :: more)).length
          - 2 - rest.length) := by
    simp only [List.length_append, hcd, List.length_cons, List.length_nil]
    omega
  unfold GetPatternFromString
  rw [hassoc, hlen, GetPatternFromString.loop_fuel init _ _ _ _ _ _ hrun (by simp)]

/-- C18, amended. For well-formed tokens the pattern that
`SDR::GetPatternFromString` returns depends only on the tokens as long as every
token but the first comes after exactly one whitespace character (a space or
any other) and the first after at most one: the text then parses to the same
pattern as the tokens joined by single spaces. Two whitespace characters
between two tokens raise the formatting error. -/
theorem GetPatternFromString_single_whitespace (init : BytePattern.Entry)
    (lead first : List Char) (rest : List (Char × List Char))
    (hlead : lead = [] ∨ ∃ c, lead = [c] ∧ String.IsSpace c = true)
    (hfirst : WellFormedToken first)
    (hrest : ∀ st ∈ rest, String.IsSpace st.1 = true ∧ WellFormedToken st.2) :
    GetPatternFromString init (lead ++ first ++ spacedWith rest)
      = GetPatternFromString init (joinTokens (first :: rest.map (fun st => st.2))) ∧
    GetPatternFromString init (lead ++ first ++ spacedWith rest)
      = .ok ((first :: rest.map (fun st => st.2)).map (tokenEntry init)) ∧
    (∀ (s1 s2 : Char) (next more : List Char), String.IsSpace s1 = true →
      String.IsSpace s2 = true → WellFormedToken next →
      GetPatternFromString init (first ++ spacedWith rest ++ s1 :: s2 :: (next ++ more))
        = .error (.raised .bytePairFormatting)) := by
  have hmain := GetPatternFromString_of_spacedWith init lead first rest hlead hfirst hrest
  have hjoin : GetPatternFromString init (joinTokens (first :: rest.map (fun st => st.2)))
      = .ok ((first :: rest.map (fun st => st.2)).map (tokenEntry init)) := by
    have h := GetPatternFromString_of_spacedWith init [] first
      ((rest.map (fun st => st.2)).map (fun t => (' ', t))) (Or.inl rfl) hfirst
      (by
        intro st hst
        obtain ⟨t, ht, rfl⟩ := List.mem_map.mp hst
        obtain ⟨st0, hst0, rfl⟩ := List.mem_map.mp ht
        exact ⟨(by decide : String.IsSpace ' ' = true), (hrest st0 hst0).2⟩)
    rw [joinTokens_cons, spaced_eq_spacedWith]
    rw [List.nil_append] at h
    rw [h]
    simp [List.map_map, Function.comp_def]
  exact ⟨hmain.trans hjoin.symm, hmain,
    fun s1 s2 next more hs1 hs2 hnext =>
      GetPatternFromString_of_double_whitespace init first rest s1 s2 next more hfirst hrest
        hs1 hs2 hnext⟩

theorem GetPatternFromString_single_whitespace_witness :
    GetPatternFromString ⟨0, false⟩ [' ', '9', '0', Char.ofNat 9, '?', '?', Char.ofNat 10, '4', 'D']
      = GetPatternFromString ⟨0, false⟩ (joinTokens [['9', '0'], ['?', '?'], ['4', 'D']]) ∧
    GetPatternFromString ⟨0, false⟩ ['9', '0', ' ', ' ', '9', '0']
      = .error (.raised .bytePairFormatting) :=
  have h := GetPatternFromString_single_whitespace ⟨0, false⟩ [' '] ['9', '0']
    [(Char.ofNat 9, ['?', '?']), (Char.ofNat 10, ['4', 'D'])]
    (Or.inr ⟨' ', rfl, by decide⟩) (Or.inr ⟨'9', '0', rfl, by decide, by decide⟩)
    (by
      intro st hst
      simp only [List.mem_cons, List.mem_singleton, List.not_mem_nil, or_false] at hst
      rcases hst with rfl | rfl
      · exact ⟨by decide, Or.inl rfl⟩
      · exact ⟨by decide, Or.inr ⟨'4', 'D', rfl, by decide, by decide⟩⟩)
  have h0 := GetPatternFromString_single_whitespace ⟨0, false⟩ [] ['9', '0'] []
    (Or.inl rfl) (Or.inr ⟨'9', '0', rfl, by decide, by decide⟩) (by simp)
  ⟨h.1, h0.2.2 ' ' ' ' ['9', '0'] [] (by decide) (by decide)
    (Or.inr ⟨'9', '0', rfl, by decide, by decide⟩)⟩

end SDR

namespace SDR

open rapidjson Config.Registry

/-! ## Address resolution by the shape of the descriptor -/

/-- C21. `SDR::GetAddressFromJsonFlex` goes by the shape of the descriptor, in
a fixed order: with a `Pattern` member it returns the result of
`GetAddressFromJsonPattern`, whether or not `VTIndex` and `VTPtrName` are there
too; otherwise, with both `VTIndex` and `VTPtrName`, it returns the result of
`GetVirtualAddressFromJson` through the registry; otherwise, also with
`VTIndex` alone, it returns null, raises nothing and reads no memory. -/
theorem GetAddressFromJsonFlex_dispatch (init : BytePattern.Entry) (finders : Finders)
    (ptrsize : Nat) (mem : Nat → Nat) (strings : Nat → String) (KeyValues : List DataType)
    (value : Value) :
    (value.HasMember "Pattern" = true →
      GetAddressFromJsonFlex init finders ptrsize mem strings KeyValues value
        = ([], GetAddressFromJsonPattern init finders value)) ∧
    (value.HasMember "Pattern" = false → value.HasMember "VTIndex" = true →
      value.HasMember "VTPtrName" = true →
      GetAddressFromJsonFlex init finders ptrsize mem strings KeyValues value
        = GetVirtualAddressFromJson ptrsize mem strings KeyValues value) ∧
    (value.HasMember "Pattern" = false →
      (value.HasMember "VTIndex" = false ∨ value.HasMember "VTPtrName" = false) →
      GetAddressFromJsonFlex init finders ptrsize mem strings KeyValues value = ([], .ok 0)) := by
  refine ⟨?_, ?_, ?_⟩
  · intro hp
    simp only [GetAddressFromJsonFlex, JsonHasPattern, hp, if_true]
  · intro hp hi hn
    simp only [GetAddressFromJsonFlex, JsonHasPattern, JsonHasVirtualIndexAndNamePtr,
      JsonHasVirtualIndexOnly, hp, hi, hn, if_true, Bool.false_eq_true, if_false]
  · intro hp hcase
    rcases hcase with hi | hn
    · simp only [GetAddressFromJsonFlex, JsonHasPattern, JsonHasVirtualIndexAndNamePtr,
        JsonHasVirtualIndexOnly, hp, hi, Bool.false_eq_true, if_false]
    · by_cases hi : value.HasMember "VTIndex" = true
      · simp only [GetAddressFromJsonFlex, JsonHasPattern, JsonHasVirtualIndexAndNamePtr,
          JsonHasVirtualIndexOnly, hp, hi, hn, if_true, Bool.false_eq_true, if_false]
      · have hi' : value.HasMember "VTIndex" = false := by simpa using hi
        simp only [GetAddressFromJsonFlex, JsonHasPattern, JsonHasVirtualIndexAndNamePtr,
          JsonHasVirtualIndexOnly, hp, hi', Bool.false_eq_true, if_false]

theorem GetAddressFromJsonFlex_dispatch_witness :
    GetAddressFromJsonFlex ⟨0, false⟩ ⟨fun _ _ offset => (1000 + offset).toNat, fun a => a + 1⟩ 4
        (fun a => a + 1000) (fun a => if a = 200 then "b" else "")
        (ModuleShared.Registry.afterCalls [⟨200, "b", 6⟩])
        (.obj [("Module", .str "engine.dll"), ("Pattern", .str "90 90"), ("VTIndex", .int 3),
          ("VTPtrName", .str "b")])
      = ([], .ok 1000) ∧
    GetAddressFromJsonFlex ⟨0, false⟩ ⟨fun _ _ offset => (1000 + offset).toNat, fun a => a + 1⟩ 4
        (fun a => a + 1000) (fun a => if a = 200 then "b" else "")
        (ModuleShared.Registry.afterCalls [⟨200, "b", 6⟩])
        (.obj [("VTIndex", .int 3), ("VTPtrName", .str "b")])
      = ([.memoryRead 6, .memoryRead 1018], .ok 2018) ∧
    GetAddressFromJsonFlex ⟨0, false⟩ ⟨fun _ _ offset => (1000 + offset).toNat, fun a => a + 1⟩ 4
        (fun a => a + 1000) (fun a => if a = 200 then "b" else "")
        (ModuleShared.Registry.afterCalls [⟨200, "b", 6⟩])
        (.obj [("VTIndex", .int 3)])
      = ([], .ok 0) :=
  ⟨((GetAddressFromJsonFlex_dispatch ⟨0, false⟩
        ⟨fun _ _ offset => (1000 + offset).toNat, fun a => a + 1⟩ 4 (fun a => a + 1000)
        (fun a => if a = 200 then "b" else "")
        (ModuleShared.Registry.afterCalls [⟨200, "b", 6⟩])
        (.obj [("Module", .str "engine.dll"), ("Pattern", .str "90 90"), ("VTIndex", .int 3),
          ("VTPtrName", .str "b")])).1 rfl).trans rfl,
    ((GetAddressFromJsonFlex_dispatch ⟨0, false⟩
        ⟨fun _ _ offset => (1000 + offset).toNat, fun a => a + 1⟩ 4 (fun a => a + 1000)
        (fun a => if a = 200 then "b" else "")
        (ModuleShared.Registry.afterCalls [⟨200, "b", 6⟩])
        (.obj [("VTIndex", .int 3), ("VTPtrName", .str "b")])).2.1 rfl rfl rfl).trans rfl,
    (GetAddressFromJsonFlex_dispatch ⟨0, false⟩
        ⟨fun _ _ offset => (1000 + offset).toNat, fun a => a + 1⟩ 4 (fun a => a + 1000)
        (fun a => if a = 200 then "b" else "")
        (ModuleShared.Registry.afterCalls [⟨200, "b", 6⟩])
        (.obj [("VTIndex", .int 3)])).2.2 rfl (Or.inr rfl)⟩

end SDR
